import Mathlib

/-!
# OFS video browser: library scan, browser frame and file dialogs

A shallow embedding of `player/Videobrowser/OFP_Videobrowser.cpp` and of the
file dialog helpers of `src/OpenFunscripterUtil.cpp`.

* Strings (`std::string`, `const char*`, `std::filesystem::path`) are lists of
  characters.
* The file system, the GUI toolkit and SDL are external: what they answer is an
  input of the model (`FileSystem`, `FrameInput`), what the code asks of them is
  recorded in a trace (`Act`) or a draw list (`DrawCall`).
* An exception that leaves the scan thread body is the `Except.error` outcome,
  carrying the browser state reached when it was raised.
-/

namespace OFS

abbrev Str := List Char

/-! ## `std::filesystem::path` and C strings -/

namespace Path

/-- The `filename()` component: what follows the last directory separator. -/
def filename (p : Str) : Str :=
  (p.reverse.takeWhile (fun c => c != '/')).reverse

/-- The `extension()` component: the part of `filename()` from its rightmost period on,
empty for the names dot and dot-dot, for a name without period and for a name
whose only period is its first character. -/
def extension (p : Str) : Str :=
  let f := filename p
  if f = ['.'] ∨ f = ['.', '.'] then []
  else if '.' ∈ f then
    let ext := '.' :: (f.reverse.takeWhile (fun c => c != '.')).reverse
    if ext.length = f.length then [] else ext
  else []

/-- The `replace_extension(replacement)` member: the extension is removed, a period is
appended when the replacement is not empty and does not start with one, then
the replacement is appended. -/
def replace_extension (p : Str) (replacement : Str) : Str :=
  let stem := p.take (p.length - (extension p).length)
  let dot : Str := if replacement ≠ [] ∧ replacement.head? ≠ some '.' then ['.'] else []
  stem ++ dot ++ replacement

end Path

/-- The string a `const char*` points at: the characters before the first NUL. -/
def cstr (s : Str) : Str := s.takeWhile (fun c => c != Char.ofNat 0)

/-- The C function `strcmp` on the strings two pointers point at: negative, zero or
positive as the first is below, equal to or above the second. -/
def strcmpAux : Str → Str → Int
  | [], [] => 0
  | [], _ :: _ => -1
  | _ :: _, [] => 1
  | a :: as, b :: bs => if a = b then strcmpAux as bs else (a.toNat : Int) - (b.toNat : Int)

def strcmp (a b : Str) : Int := strcmpAux (cstr a) (cstr b)

/-! ## Data model -/

/-- The `Video` record filled by the scan. `timestamp` is a `uint64_t`. -/
structure Video where
  path : Str
  byte_count : Nat
  filename : Str
  hasScript : Bool
  timestamp : Nat
  shouldGenerateThumbnail : Bool
deriving DecidableEq, Repr

/-- An entry of `Videobrowser::Items`: the video, the focus flag and the texture id
(0 while no thumbnail is loaded). -/
structure VideobrowserItem where
  video : Video
  Focussed : Bool
  texId : Nat
deriving DecidableEq, Repr

/-- The item `Items.emplace_back(std::move(vid))` builds from a `Video`. -/
def VideobrowserItem.ofVideo (vid : Video) : VideobrowserItem :=
  { video := vid, Focussed := false, texId := 0 }

structure LibraryPath where
  path : Str
  recursive : Bool
deriving DecidableEq, Repr

structure VideobrowserSettings where
  showThumbnails : Bool
  ItemsPerRow : Int
  SearchPaths : List LibraryPath
deriving DecidableEq, Repr

/-- The events of `VideobrowserEvents`. -/
inductive Event where
  | VideobrowserItemClicked
deriving DecidableEq, Repr

/-- What the code asks of SDL, plus a marker for each access to `Items` and for the
log line that ends the iteration of a search path. -/
inductive Act where
  | AtomicLock
  | AtomicUnlock
  | ItemsAccess
  | CreateThread (name : String) (handle : Nat)
  | DetachThread (handle : Nat)
  | PushEvent (ev : Event)
  | DoneIterating (path : Str) (recursive : Bool)
deriving DecidableEq, Repr

/-- The `Videobrowser` object, with the trace of its calls. -/
structure Videobrowser where
  Items : List VideobrowserItem
  CacheNeedsUpdate : Bool
  ClickedFilePath : Str
  Filter : Str
  ShowSettings : Bool
  Random : Bool
  settings : VideobrowserSettings
  trace : List Act
deriving DecidableEq, Repr

/-! ## The file system seen by the scan -/

/-- What the calls made by `GetFileAge` answer for one path. -/
structure FileTimes where
  /-- WIN32: `CreateFileW` gave a valid handle. -/
  createFile : Bool
  /-- WIN32: the creation time stored by `GetFileTime`, `none` when it fails. -/
  getFileTime : Option Nat
  /-- The count of `last_write_time(path, ec)`, `none` when it sets `ec`. -/
  last_write_time : Option Nat
deriving DecidableEq, Repr

/-- A `directory_entry` met by an iterator. `is_directory` and `file_size` are `none` when
the throwing overloads `is_directory()` and `file_size()` raise
`filesystem_error`. -/
structure DirEntry where
  path : Str
  is_directory : Option Bool
  file_size : Option Nat
deriving DecidableEq, Repr

/-- One run of a directory iterator: `ec` is set when the constructor fails (the
iterator then equals the end iterator), `entries` are the entries it yields,
and `incrementThrows` tells whether the `operator++` after the last of them
raises instead of reaching the end. -/
structure DirStream where
  ec : Bool
  entries : List DirEntry
  incrementThrows : Bool
deriving DecidableEq, Repr

structure FileSystem where
  /-- Compiled with `WIN32` defined. -/
  win32 : Bool
  /-- The count of `file_time_type::min()` as a `uint64_t`. -/
  fileTimeMin : Nat
  times : Str → FileTimes
  directory_iterator : Str → DirStream
  recursive_directory_iterator : Str → DirStream
  /-- The helper `Util::FileExists`. -/
  FileExists : Str → Bool

/-! ## The library scan -/

/-- The static function `GetFileAge`. -/
def GetFileAge (fs : FileSystem) (path : Str) : Nat :=
  let timestamp := 0
  if fs.win32 then
    if !(fs.times path).createFile then
      timestamp
    else
      match (fs.times path).getFileTime with
      | none => ((fs.times path).last_write_time).getD fs.fileTimeMin
      | some ftCreate => ftCreate
  else
    ((fs.times path).last_write_time).getD fs.fileTimeMin

def SDL_AtomicLock (b : Videobrowser) : Videobrowser :=
  { b with trace := b.trace ++ [Act.AtomicLock] }

def SDL_AtomicUnlock (b : Videobrowser) : Videobrowser :=
  { b with trace := b.trace ++ [Act.AtomicUnlock] }

/-- A strict weak ordering, which `std::sort` requires its comparator to be: irreflexive,
transitive, and with a transitive "neither before the other". -/
def StrictWeakOrder {α : Type} (comp : α → α → Bool) : Prop :=
  (∀ a, comp a a = false) ∧
    (∀ a b c, comp a b = true → comp b c = true → comp a c = true) ∧
    (∀ a b c, comp a b = false → comp b c = false → comp a c = false)

/-- The library function `std::sort(first, last, comp)`. The standard fixes its result only
up to the order of equivalent elements: the result is a permutation of the
range and, for a strict weak ordering, no element is put by `comp` before an
element that precedes it. Which such function the library provides is a
parameter of the scan. -/
structure StdSort where
  sort : {α : Type} → (α → α → Bool) → List α → List α
  perm : ∀ {α : Type} (comp : α → α → Bool) (l : List α), (sort comp l).Perm l
  sorted : ∀ {α : Type} (comp : α → α → Bool) (l : List α), StrictWeakOrder comp →
    (sort comp l).Pairwise (fun a b => comp b a = false)

/-- Puts `x` into a sorted list, before the first element that `comp` does not put
before it. -/
def sortInsert {α : Type} (comp : α → α → Bool) (x : α) : List α → List α
  | [] => [x]
  | y :: ys => if comp y x then y :: sortInsert comp x ys else x :: y :: ys

/-- The insertion sort. -/
def insertionSort {α : Type} (comp : α → α → Bool) : List α → List α
  | [] => []
  | x :: xs => sortInsert comp x (insertionSort comp xs)

/-- One function that `std::sort` may be: the insertion sort. It serves to run the scan
on sample libraries. -/
def insertionStdSort : StdSort where
  sort := insertionSort
  perm := by
    intro α comp l
    have hins : ∀ (x : α) (l : List α), (sortInsert comp x l).Perm (x :: l) := by
      intro x l
      induction l with
      | nil => exact List.Perm.refl _
      | cons y ys ih =>
        unfold sortInsert
        split
        · exact (List.Perm.cons y ih).trans (List.Perm.swap x y ys)
        · exact List.Perm.refl _
    induction l with
    | nil => exact List.Perm.refl _
    | cons x xs ih => exact (hins x _).trans (List.Perm.cons x ih)
  sorted := by
    intro α comp l hswo
    obtain ⟨hirr, htrans, hneg⟩ := hswo
    have hmem : ∀ (x z : α) (l : List α), z ∈ sortInsert comp x l → z = x ∨ z ∈ l := by
      intro x z l
      induction l with
      | nil => intro hz; exact Or.inl (List.mem_singleton.1 hz)
      | cons y ys ih =>
        unfold sortInsert
        split
        · intro hz
          rcases List.mem_cons.1 hz with rfl | hz2
          · exact Or.inr (List.mem_cons_self _ _)
          · rcases ih hz2 with h1 | h1
            · exact Or.inl h1
            · exact Or.inr (List.mem_cons_of_mem _ h1)
        · intro hz
          exact List.mem_cons.1 hz
    have hins : ∀ (x : α) (l : List α), l.Pairwise (fun a b => comp b a = false) →
        (sortInsert comp x l).Pairwise (fun a b => comp b a = false) := by
      intro x l
      induction l with
      | nil => intro _; simp [sortInsert]
      | cons y ys ih =>
        intro hl
        rw [List.pairwise_cons] at hl
        unfold sortInsert
        split
        · next hc =>
          rw [List.pairwise_cons]
          refine ⟨?_, ih hl.2⟩
          intro z hz
          rcases hmem x z ys hz with rfl | hz2
          · cases hzy : comp z y
            · rfl
            · have := htrans z y z hzy hc
              rw [hirr z] at this
              exact absurd this (by decide)
          · exact hl.1 z hz2
        · next hc =>
          have hyx : comp y x = false := by
            cases hv : comp y x
            · rfl
            · exact absurd hv hc
          rw [List.pairwise_cons]
          refine ⟨?_, List.pairwise_cons.2 hl⟩
          intro z hz
          rcases List.mem_cons.1 hz with rfl | hz2
          · exact hyx
          · exact hneg z y x (hl.1 z hz2) hyx
    induction l with
    | nil => simp [insertionSort]
    | cons x xs ih => exact hins x _ ih

/-- The comparator handed to `std::sort` by the scan. -/
def newerFirst (item1 item2 : VideobrowserItem) : Bool :=
  decide (item1.video.timestamp > item2.video.timestamp)

/-- The lambda `handleItem` of `updateLibrary`, for the extension table
`BrowserExtensions` (pairs of extension and thumbnail flag). The call
`vid.insert()` writes to the video library database, which is external: it is
taken to return and it leaves `Items` alone. -/
def handleItem (fs : FileSystem) (BrowserExtensions : List (Str × Bool))
    (browser : Videobrowser) (p : DirEntry) : Except Videobrowser Videobrowser :=
  let extension := Path.extension p.path
  match p.is_directory with
  | none => .error browser
  | some true => .ok browser
  | some false =>
    match BrowserExtensions.find? (fun ext => strcmp ext.1 extension == 0) with
    | none => .ok browser
    | some it =>
      let timestamp := GetFileAge fs p.path
      let funscript := Path.replace_extension p.path ".funscript".toList
      let matchingScript := fs.FileExists funscript
      if !matchingScript then .ok browser
      else
        match p.file_size with
        | none => .error browser
        | some byte_count =>
          let vid : Video :=
            { path := p.path
              byte_count := byte_count
              filename := Path.filename p.path
              hasScript := matchingScript
              timestamp := timestamp
              shouldGenerateThumbnail := it.2 }
          let browser := SDL_AtomicLock browser
          let browser :=
            { browser with
              Items := browser.Items ++ [VideobrowserItem.ofVideo vid]
              trace := browser.trace ++ [Act.ItemsAccess] }
          .ok (SDL_AtomicUnlock browser)

/-- A range-for loop over a directory iterator with body `handleItem`. -/
def iterate (fs : FileSystem) (BrowserExtensions : List (Str × Bool))
    (browser : Videobrowser) (it : DirStream) : Except Videobrowser Videobrowser :=
  if it.ec then .ok browser
  else
    match it.entries.foldlM (handleItem fs BrowserExtensions) browser with
    | .error b => .error b
    | .ok b => if it.incrementThrows then .error b else .ok b

/-- The body of the loop over `searchPaths`. -/
def scanPath (fs : FileSystem) (BrowserExtensions : List (Str × Bool))
    (browser : Videobrowser) (sPath : LibraryPath) : Except Videobrowser Videobrowser :=
  let pathObj := sPath.path
  let it := if sPath.recursive then fs.recursive_directory_iterator pathObj
            else fs.directory_iterator pathObj
  match iterate fs BrowserExtensions browser it with
  | .error b => .error b
  | .ok b => .ok { b with trace := b.trace ++ [Act.DoneIterating sPath.path sPath.recursive] }

/-- The thread body `updateLibrary`: the browser it leaves and the value it returns,
or the state in which an exception left it. -/
def updateLibrary (std : StdSort) (fs : FileSystem) (BrowserExtensions : List (Str × Bool))
    (browser : Videobrowser) : Except Videobrowser (Videobrowser × Int) :=
  let browser := SDL_AtomicLock browser
  let browser := { browser with Items := [], trace := browser.trace ++ [Act.ItemsAccess] }
  let browser := SDL_AtomicUnlock browser
  match browser.settings.SearchPaths.foldlM (scanPath fs BrowserExtensions) browser with
  | .error b => .error b
  | .ok browser =>
    let browser := SDL_AtomicLock browser
    let browser :=
      { browser with
        Items := std.sort newerFirst browser.Items
        trace := browser.trace ++ [Act.ItemsAccess] }
    let browser := SDL_AtomicUnlock browser
    .ok (browser, 0)


/-! ## Threads -/

/-- The handle the next created thread gets: the number of threads created so far. -/
def nextHandle (trace : List Act) : Nat :=
  trace.countP (fun a => match a with | Act.CreateThread _ _ => true | _ => false)

/-- The call `SDL_CreateThread(fn, name, data)`: the handle returned (handles are
numbered in the order of their creation) and the trace with the call. -/
def SDL_CreateThread (trace : List Act) (name : String) : Nat × List Act :=
  let handle := nextHandle trace
  (handle, trace ++ [Act.CreateThread name handle])

def SDL_DetachThread (trace : List Act) (handle : Nat) : List Act :=
  trace ++ [Act.DetachThread handle]

/-- The method `Videobrowser::updateLibraryCache`: what it does on the calling thread. The
thread body is `updateLibrary`. -/
def updateLibraryCache (browser : Videobrowser) : Videobrowser :=
  let browser := { browser with CacheNeedsUpdate := false }
  let thread := SDL_CreateThread browser.trace "UpdateVideoLibrary"
  { browser with trace := SDL_DetachThread thread.2 thread.1 }

/-- The constructor `Videobrowser::Videobrowser`, run on the object `self` with its
default member values; `vidCache` is what `Videolibrary::GetVideos()` returns. -/
def Videobrowser.ctor (self : Videobrowser) (settings : VideobrowserSettings)
    (vidCache : List Video) : Videobrowser :=
  let self := { self with settings := settings }
  let self := { self with CacheNeedsUpdate := vidCache.isEmpty }
  let self := SDL_AtomicLock self
  let self := vidCache.foldl
    (fun (self : Videobrowser) cached =>
      { self with
        Items := self.Items ++ [VideobrowserItem.ofVideo cached]
        trace := self.trace ++ [Act.ItemsAccess] })
    self
  SDL_AtomicUnlock self

/-! ## File dialogs (`Util`) -/

namespace Util

/-- The state of the loop that cuts the result of a multiple selection: the local
variables `last` and `index` and the list `dialogResult->files`. -/
structure SplitState where
  last : Nat
  index : Nat
  files : List Str
deriving DecidableEq, Repr

/-- One turn of the loop `for (char c : std::string(result))`. The string
`std::string(result + last, index - last)` is `index - last` characters of
`result` from position `last`. -/
def splitStep (result : Str) (st : SplitState) (c : Char) : SplitState :=
  let st :=
    if c = '|' then
      { st with
        files := st.files ++ [(result.drop st.last).take (st.index - st.last)]
        last := st.index + 1 }
    else st
  { st with index := st.index + 1 }

/-- The list `dialogResult->files` built by the thread of `Util::OpenFileDialog` from the
pointer returned by `tinyfd_openFileDialog` (`none` for a null pointer). -/
def OpenFileDialog_files (result : Option Str) (multiple : Bool) : List Str :=
  match result with
  | none => []
  | some result =>
    if multiple then
      let st := result.foldl (splitStep result) { last := 0, index := 0, files := [] }
      st.files ++ [(result.drop st.last).take (st.index - st.last)]
    else
      [result]

/-- The function `Util::OpenFileDialog`: what it does on the calling thread. -/
def OpenFileDialog (trace : List Act) : List Act :=
  let handle := SDL_CreateThread trace "OpenFileDialog"
  SDL_DetachThread handle.2 handle.1

/-- The function `Util::SaveFileDialog`: what it does on the calling thread. -/
def SaveFileDialog (trace : List Act) : List Act :=
  let handle := SDL_CreateThread trace "SaveFileDialog"
  handle.2

/-- Modelled from the spec: `Util::Clamp` is declared in `OFS_Util.h`, which is not among
the sources; it keeps a value inside the closed range between its two bounds. -/
def Clamp (v lo hi : Int) : Int := max lo (min v hi)

end Util

/-! ## The browser window -/

/-- The calls to the GUI toolkit that place the items of the grid. -/
inductive DrawCall where
  | ImageButtonEx (label : Str)
  | Button (label : Str)
  | SameLine
deriving DecidableEq, Repr

/-- Helpers declared in headers that are not among the sources. -/
structure Helpers where
  /-- The helper `Util::ContainsInsensitive(haystack, needle)`. -/
  ContainsInsensitive : Str → Str → Bool
  /-- The method `VideobrowserItem::IsDirectory()`. -/
  IsDirectory : VideobrowserItem → Bool

/-- What the GUI toolkit answers during one frame. Items are told apart by their
position in `Items`, rows of the search path table by their index. -/
structure FrameInput where
  /-- The argument `open`: `none` for a null pointer. -/
  windowOpen : Option Bool
  beginMenuBar : Bool
  beginMenuView : Bool
  /-- The menu item "Show thumbnails" was activated. -/
  thumbnailsClicked : Bool
  /-- The value `ImGui::InputInt` leaves in the "Items" field, from the one it held. -/
  inputInt : Int → Int
  /-- The menu item "Settings" was activated. -/
  settingsClicked : Bool
  refresh : Bool
  /-- The text `ImGui::InputText` leaves in `Filter`, from the one it held. -/
  inputText : Str → Str
  navCancel : Bool
  navFocusPrev : Bool
  navFocusNext : Bool
  /-- The button of the item returned true. -/
  clicked : Nat → Bool
  /-- The item is hovered, active, activated or focused. -/
  hovered : Nat → Bool
  settingsPopup : Bool
  settingsPopupClosed : Bool
  settingsTable : Bool
  removeClicked : Nat → Bool
  lootPopup : Bool
  lootPopupClosed : Bool

/-- The lambda `fileClickHandler` of `ShowBrowser`. -/
def fileClickHandler (browser : Videobrowser) (item : VideobrowserItem) : Videobrowser :=
  if item.video.hasScript then
    let browser := { browser with ClickedFilePath := item.video.path }
    { browser with trace := browser.trace ++ [Act.PushEvent Event.VideobrowserItemClicked] }
  else browser

/-- The lambda `directoryClickHandler` of `ShowBrowser`. -/
def directoryClickHandler (browser : Videobrowser) (_item : VideobrowserItem) : Videobrowser :=
  { browser with CacheNeedsUpdate := true }

/-- The variables of the grid loop: the browser, the items already passed (with their
focus flag as the loop leaves it), the position in `Items`, the locals `index`,
`itemFocussed` and `previewItem`, and the draw list. -/
structure GridState where
  browser : Videobrowser
  items : List VideobrowserItem
  pos : Nat
  index : Int
  itemFocussed : Bool
  previewItem : Option VideobrowserItem
  draw : List DrawCall

/-- The part of the loop body that draws one item and handles a click on it. -/
def drawItem (h : Helpers) (inp : FrameInput) (st : GridState) (item : VideobrowserItem) :
    GridState :=
  if !h.IsDirectory item then
    if item.texId != 0 then
      let st := { st with draw := st.draw ++ [DrawCall.ImageButtonEx item.video.filename] }
      let st :=
        if inp.clicked st.pos then { st with browser := fileClickHandler st.browser item }
        else st
      let item := { item with Focussed := inp.hovered st.pos && !st.itemFocussed }
      let st :=
        if item.Focussed then { st with itemFocussed := true, previewItem := some item }
        else st
      { st with items := st.items ++ [item] }
    else
      let st := { st with draw := st.draw ++ [DrawCall.Button item.video.filename] }
      let st :=
        if inp.clicked st.pos then { st with browser := fileClickHandler st.browser item }
        else st
      { st with items := st.items ++ [item] }
  else
    let st := { st with draw := st.draw ++ [DrawCall.Button item.video.filename] }
    let st :=
      if inp.clicked st.pos then { st with browser := directoryClickHandler st.browser item }
      else st
    { st with items := st.items ++ [item] }

/-- The body of the loop `for (auto& item : Items)` of `ShowBrowser`. -/
def gridStep (h : Helpers) (inp : FrameInput) (st : GridState) (item : VideobrowserItem) :
    GridState :=
  let st := { st with browser := { st.browser with trace := st.browser.trace ++ [Act.ItemsAccess] } }
  if st.index != 0 && !st.browser.Filter.isEmpty
      && !h.ContainsInsensitive item.video.filename st.browser.Filter then
    { st with items := st.items ++ [item], pos := st.pos + 1 }
  else
    let st := drawItem h inp st item
    let st := { st with index := st.index + 1 }
    let st :=
      if Int.tmod st.index st.browser.settings.ItemsPerRow != 0 then
        { st with draw := st.draw ++ [DrawCall.SameLine] }
      else st
    { st with pos := st.pos + 1 }

/-- The locals of `ShowBrowser` when the grid loop is entered, `Items` being read for the
range of the loop. -/
def gridInit (browser : Videobrowser) : GridState :=
  { browser := { browser with trace := browser.trace ++ [Act.ItemsAccess] }, items := [],
    pos := 0, index := 0, itemFocussed := false, previewItem := none, draw := [] }

/-- The grid loop of `ShowBrowser`, from `int index = 0` to the end of the loop. -/
def gridLoop (h : Helpers) (inp : FrameInput) (browser : Videobrowser) : GridState :=
  browser.Items.foldl (gridStep h inp) (gridInit browser)

/-- The View menu and the "Settings" item of the menu bar. -/
def menuBar (inp : FrameInput) (browser : Videobrowser) : Videobrowser :=
  if inp.beginMenuBar then
    let browser :=
      if inp.beginMenuView then
        let settings :=
          { browser.settings with
            showThumbnails := xor browser.settings.showThumbnails inp.thumbnailsClicked }
        let settings := { settings with ItemsPerRow := inp.inputInt settings.ItemsPerRow }
        let settings := { settings with ItemsPerRow := Util.Clamp settings.ItemsPerRow 1 25 }
        { browser with settings := settings }
      else browser
    { browser with ShowSettings := xor browser.ShowSettings inp.settingsClicked }
  else browser

/-- The navigation inputs tested before the grid loop. -/
def navInput (inp : FrameInput) (browser : Videobrowser) : Videobrowser :=
  if inp.navCancel then
    let browser := { browser with trace := browser.trace ++ [Act.ItemsAccess] }
    match browser.Items with
    | [] => browser
    | front :: _ =>
      if front.video.filename = "..".toList then directoryClickHandler browser front
      else browser
  else if inp.navFocusPrev then
    let settings := { browser.settings with ItemsPerRow := browser.settings.ItemsPerRow - 1 }
    let settings := { settings with ItemsPerRow := Util.Clamp settings.ItemsPerRow 1 25 }
    { browser with settings := settings }
  else if inp.navFocusNext then
    let settings := { browser.settings with ItemsPerRow := browser.settings.ItemsPerRow + 1 }
    let settings := { settings with ItemsPerRow := Util.Clamp settings.ItemsPerRow 1 25 }
    { browser with settings := settings }
  else browser

/-- The method `Videobrowser::ShowBrowserSettings(&ShowSettings)`: the row whose "Remove"
button is pressed is erased from `SearchPaths`. The directory dialog opened by
"Choose path" answers in a later frame. -/
def ShowBrowserSettings (inp : FrameInput) (browser : Videobrowser) : Videobrowser :=
  if !browser.ShowSettings then browser
  else if inp.settingsPopup then
    let browser := { browser with ShowSettings := !inp.settingsPopupClosed }
    if inp.settingsTable then
      let size := browser.settings.SearchPaths.length
      let index := ((List.range size).find? inp.removeClicked).getD size
      if index < size then
        { browser with
          settings :=
            { browser.settings with
              SearchPaths := browser.settings.SearchPaths.eraseIdx index } }
      else browser
    else browser
  else browser

/-- The method `Videobrowser::Lootcrate(&Random)`; `renderLoot` reads `Items.empty()`. -/
def Lootcrate (inp : FrameInput) (browser : Videobrowser) : Videobrowser :=
  if !browser.Random then browser
  else if inp.lootPopup then
    let browser := { browser with Random := !inp.lootPopupClosed }
    { browser with trace := browser.trace ++ [Act.ItemsAccess] }
  else browser

/-- The part of `ShowBrowser` between the test of `open` and the grid loop. -/
def frameHead (inp : FrameInput) (browser : Videobrowser) : Videobrowser :=
  let browser := if browser.CacheNeedsUpdate then updateLibraryCache browser else browser
  let browser := SDL_AtomicLock browser
  let browser := menuBar inp browser
  let browser := if inp.refresh then { browser with CacheNeedsUpdate := true } else browser
  let browser := { browser with Filter := inp.inputText browser.Filter }
  navInput inp browser

/-- The method `Videobrowser::ShowBrowser`: the browser it leaves and the draw list of the
grid. The video preview, the thumbnail generation and the styling calls belong
to the toolkit and are left out. -/
def ShowBrowser (h : Helpers) (inp : FrameInput) (browser : Videobrowser) :
    Videobrowser × List DrawCall :=
  if inp.windowOpen = some false then (browser, [])
  else
    let browser := frameHead inp browser
    let grid := gridLoop h inp browser
    let browser := { grid.browser with Items := grid.items }
    let browser := SDL_AtomicUnlock browser
    let browser := ShowBrowserSettings inp browser
    let browser := SDL_AtomicLock browser
    let browser := Lootcrate inp browser
    let browser := SDL_AtomicUnlock browser
    (browser, grid.draw)

/-! ## Vocabulary of the statements -/

/-- The path whose existence `handleItem` tests for an entry. -/
def funscriptOf (p : DirEntry) : Str := Path.replace_extension p.path ".funscript".toList

/-- The entry of the extension table that `std::find_if` stops at. -/
def matchingExt (BrowserExtensions : List (Str × Bool)) (p : DirEntry) : Option (Str × Bool) :=
  BrowserExtensions.find? (fun ext => strcmp ext.1 (Path.extension p.path) == 0)

/-- The three conditions under which the scan keeps an entry. -/
def accepted (fs : FileSystem) (BrowserExtensions : List (Str × Bool)) (p : DirEntry) : Bool :=
  decide (p.is_directory = some false) && (matchingExt BrowserExtensions p).isSome &&
    fs.FileExists (funscriptOf p)

/-- The item the scan builds for an entry kept with table entry `it` and size `byte_count`. -/
def itemOf (fs : FileSystem) (it : Str × Bool) (p : DirEntry) (byte_count : Nat) :
    VideobrowserItem :=
  VideobrowserItem.ofVideo
    { path := p.path
      byte_count := byte_count
      filename := Path.filename p.path
      hasScript := true
      timestamp := GetFileAge fs p.path
      shouldGenerateThumbnail := it.2 }

/-- The item a visited entry contributes: none unless it is accepted and its size is read. -/
def scanItem (fs : FileSystem) (BrowserExtensions : List (Str × Bool)) (p : DirEntry) :
    Option VideobrowserItem :=
  if accepted fs BrowserExtensions p then
    match matchingExt BrowserExtensions p, p.file_size with
    | some it, some n => some (itemOf fs it p n)
    | _, _ => none
  else none

/-- Handling the entry raises: the test `is_directory()` raises, or the entry is accepted
and reading its size raises. -/
def throwsAt (fs : FileSystem) (BrowserExtensions : List (Str × Bool)) (p : DirEntry) : Bool :=
  p.is_directory.isNone || (accepted fs BrowserExtensions p && p.file_size.isNone)

/-- The trace of one append to `Items`. -/
def appendTrace : List Act := [Act.AtomicLock, Act.ItemsAccess, Act.AtomicUnlock]

/-- The iterator the scan opens for a search path. -/
def streamOf (fs : FileSystem) (sPath : LibraryPath) : DirStream :=
  if sPath.recursive then fs.recursive_directory_iterator sPath.path
  else fs.directory_iterator sPath.path

/-- The entries the loop body sees for a search path: none when the iterator could
not be opened. -/
def visited (fs : FileSystem) (sPath : LibraryPath) : List DirEntry :=
  if (streamOf fs sPath).ec then [] else (streamOf fs sPath).entries

/-- Scanning the search path raises: the path opens and the directory test of an entry,
the size read of an accepted entry or a step of the iterator raises. -/
def pathThrows (fs : FileSystem) (BrowserExtensions : List (Str × Bool))
    (sPath : LibraryPath) : Bool :=
  !(streamOf fs sPath).ec &&
    ((streamOf fs sPath).entries.any (throwsAt fs BrowserExtensions) ||
      (streamOf fs sPath).incrementThrows)

/-- The items found by a scan of the search paths, in the order they are met. -/
def found (fs : FileSystem) (BrowserExtensions : List (Str × Bool))
    (searchPaths : List LibraryPath) : List VideobrowserItem :=
  (searchPaths.flatMap (visited fs)).filterMap (scanItem fs BrowserExtensions)

/-- The trace left by the entries of a list. -/
def entriesTrace (fs : FileSystem) (BrowserExtensions : List (Str × Bool))
    (es : List DirEntry) : List Act :=
  (es.map (fun p => if accepted fs BrowserExtensions p then appendTrace else [])).flatten

/-- The trace left by one search path scanned to its end. -/
def pathTrace (fs : FileSystem) (BrowserExtensions : List (Str × Bool))
    (sPath : LibraryPath) : List Act :=
  entriesTrace fs BrowserExtensions (visited fs sPath) ++
    [Act.DoneIterating sPath.path sPath.recursive]

/-- The trace of a whole scan that raises nowhere. -/
def scanTrace (fs : FileSystem) (BrowserExtensions : List (Str × Bool))
    (searchPaths : List LibraryPath) : List Act :=
  appendTrace ++ (searchPaths.map (pathTrace fs BrowserExtensions)).flatten ++ appendTrace

/-- The three conditions of the scan, in words of the file system: the entry is not a
directory, its extension is the extension of an entry of the table, and the
file with the extension replaced by ".funscript" exists. -/
def paired (fs : FileSystem) (BrowserExtensions : List (Str × Bool)) (p : DirEntry) : Prop :=
  p.is_directory = some false ∧ (∃ ext ∈ BrowserExtensions, ext.1 = Path.extension p.path) ∧
    fs.FileExists (Path.replace_extension p.path ".funscript".toList) = true

/-- The timestamp of the path cannot be read: the call that `GetFileAge` relies on fails. -/
def timestampUnreadable (fs : FileSystem) (path : Str) : Bool :=
  if fs.win32 then
    !(fs.times path).createFile ||
      ((fs.times path).getFileTime.isNone && (fs.times path).last_write_time.isNone)
  else (fs.times path).last_write_time.isNone

/-- The search paths whose end of iteration the trace reports, in order. -/
def doneIterating : List Act → List LibraryPath
  | [] => []
  | Act.DoneIterating path recursive :: t => ⟨path, recursive⟩ :: doneIterating t
  | _ :: t => doneIterating t

/-! ### Lock discipline -/

/-- Runs a trace against the spinlock `ItemsLock`, from the state `held`: the state in
which the trace leaves the lock, or `none` when the trace locks a lock it
holds, unlocks one it does not hold, or touches `Items` without holding it. -/
def disciplineFrom : Bool → List Act → Option Bool
  | held, [] => some held
  | held, Act.AtomicLock :: t => if held then none else disciplineFrom true t
  | held, Act.AtomicUnlock :: t => if held then disciplineFrom false t else none
  | held, Act.ItemsAccess :: t => if held then disciplineFrom true t else none
  | held, _ :: t => disciplineFrom held t

/-- The trace of an operation that starts and ends without the lock and follows the
discipline in between. -/
def Disciplined (t : List Act) : Prop := disciplineFrom false t = some false

/-! ### Grid layout -/

/-- The call draws an item of the grid. -/
def DrawCall.isItem : DrawCall → Bool
  | DrawCall.SameLine => false
  | _ => true

/-- The draw list that shows the items `cs` in rows of `n`, after `k` items already
shown: each item is followed by `SameLine` unless its number is a multiple of `n`. -/
def layoutFrom (n : Nat) : Nat → List DrawCall → List DrawCall
  | _, [] => []
  | k, c :: cs =>
    (if (k + 1) % n ≠ 0 then [c, DrawCall.SameLine] else [c]) ++ layoutFrom n (k + 1) cs

/-- The rows a draw list produces: an item stays on the line of the item before it
when `SameLine` was called in between. -/
def rowsOf : List DrawCall → List (List DrawCall)
  | [] => []
  | DrawCall.SameLine :: rest => rowsOf rest
  | c :: rest =>
    match rest.head?, rowsOf rest with
    | some DrawCall.SameLine, r :: rs => (c :: r) :: rs
    | _, rs => [c] :: rs

/-! ### Sample inputs -/

/-- A sample extension table. -/
def sampleExtensions : List (Str × Bool) := [(".mp4".toList, true), (".mp3".toList, false)]

/-- A browser with one search path, "/lib", not recursive. -/
def sampleBrowser : Videobrowser :=
  { Items := [], CacheNeedsUpdate := false, ClickedFilePath := [], Filter := [],
    ShowSettings := false, Random := false,
    settings := { showThumbnails := true, ItemsPerRow := 4,
                  SearchPaths := [⟨"/lib".toList, false⟩] },
    trace := [] }

/-- A library "/lib" with the given entries, in which "/lib/a.funscript" and
"/lib/b.funscript" exist. -/
def sampleFileSystem (win32 : Bool) (entries : List DirEntry) (times : Str → FileTimes)
    (incrementThrows : Bool) : FileSystem :=
  { win32 := win32
    fileTimeMin := 2 ^ 63
    times := times
    directory_iterator := fun p =>
      if p = "/lib".toList then ⟨false, entries, incrementThrows⟩ else ⟨true, [], false⟩
    recursive_directory_iterator := fun _ => ⟨true, [], false⟩
    FileExists := fun p =>
      decide (p = "/lib/a.funscript".toList) || decide (p = "/lib/b.funscript".toList) }

/-- The entry "/lib/a.mp4" with the given size. -/
def entryA (size : Option Nat) : DirEntry := ⟨"/lib/a.mp4".toList, some false, size⟩

/-- The entry "/lib/b.mp4" with the given size. -/
def entryB (size : Option Nat) : DirEntry := ⟨"/lib/b.mp4".toList, some false, size⟩

/-- The entry "/lib/loop.mp4" whose kind cannot be told (a symbolic link that loops). -/
def entryLoop : DirEntry := ⟨"/lib/loop.mp4".toList, none, some 0⟩

/-- Times that are all read: "/lib/b.mp4" is newer than every other path. -/
def sampleTimes (path : Str) : FileTimes :=
  if path = "/lib/b.mp4".toList then ⟨true, some 9, some 9⟩ else ⟨true, some 5, some 5⟩

/-- Times that cannot be read. -/
def noTimes (_path : Str) : FileTimes := ⟨false, none, none⟩

/-- The item the scan builds for a sample entry. -/
def sampleItem (path filename : String) (size timestamp : Nat) : VideobrowserItem :=
  VideobrowserItem.ofVideo
    { path := path.toList, byte_count := size, filename := filename.toList, hasScript := true,
      timestamp := timestamp, shouldGenerateThumbnail := true }

/-! ### The grid loop, item by item -/

/-- The call that draws an item. -/
def itemCall (h : Helpers) (item : VideobrowserItem) : DrawCall :=
  if !h.IsDirectory item && item.texId != 0 then DrawCall.ImageButtonEx item.video.filename
  else DrawCall.Button item.video.filename

/-- The effect on the browser of drawing the item at position `pos`: the handler of its
kind runs when its button is clicked. -/
def clickEffect (h : Helpers) (inp : FrameInput) (pos : Nat) (browser : Videobrowser)
    (item : VideobrowserItem) : Videobrowser :=
  if inp.clicked pos then
    if h.IsDirectory item then directoryClickHandler browser item
    else fileClickHandler browser item
  else browser

/-- The filter check at the head of the loop body lets the item through. -/
def shown (h : Helpers) (index : Int) (filter : Str) (item : VideobrowserItem) : Bool :=
  !(index != 0 && !filter.isEmpty && !h.ContainsInsensitive item.video.filename filter)

/-- Sample helpers: the filter matches names that contain it exactly, no item is a directory. -/
def sampleHelpers : Helpers :=
  { ContainsInsensitive := fun haystack needle => decide (needle <:+: haystack)
    IsDirectory := fun _ => false }

/-- A frame in which the window is open, the user types `typed` into the "Items" field of
the View menu, presses FocusNext and clicks the item at position 0. -/
def sampleInput (typed : Int) : FrameInput :=
  { windowOpen := some true, beginMenuBar := true, beginMenuView := true,
    thumbnailsClicked := false, inputInt := fun _ => typed, settingsClicked := false,
    refresh := false, inputText := fun s => s, navCancel := false, navFocusPrev := false,
    navFocusNext := true, clicked := fun pos => decide (pos = 0), hovered := fun _ => false,
    settingsPopup := false, settingsPopupClosed := false, settingsTable := false,
    removeClicked := fun _ => false, lootPopup := false, lootPopupClosed := false }

/-! ### Cutting a multiple selection -/

/-- What holds of the loop variables once the characters `pre` of the result are read:
`index` counts them, `last` starts the entry being read, and the entries cut
so far followed by the one being read are the split of `pre` on the bar. -/
def Util.SplitInv (pre : Str) (st : Util.SplitState) : Prop :=
  st.index = pre.length ∧ st.last ≤ pre.length ∧ (∀ f ∈ st.files, '|' ∉ f) ∧
    '|' ∉ pre.drop st.last ∧ st.files.length = pre.count '|' ∧
    List.intercalate ['|'] (st.files ++ [pre.drop st.last]) = pre

/-- What holds of rows read from a draw list that starts after `k` items: every row but
the last is full, the first one counting the `k % n` items before it. -/
def RowsFrom (n k : Nat) : List (List DrawCall) → Prop
  | [] => True
  | r0 :: rest => (rest ≠ [] → r0.length + k % n = n) ∧ ∀ r ∈ rest.dropLast, r.length = n

/-- The trace `t` follows the discipline from the lock state `a` and leaves the lock in
the state `c`. -/
def Runs (a c : Bool) (t : List Act) : Prop := disciplineFrom a t = some c

/-- The browser `b2` is reached from `b1` by a trace that follows the discipline, taking
the lock from the state `a` to the state `c`. -/
def Reaches (a c : Bool) (b1 b2 : Videobrowser) : Prop :=
  ∃ t, b2.trace = b1.trace ++ t ∧ Runs a c t

/-- The browser in which a step of the scan ends, by returning or by raising. -/
def outcome : Except Videobrowser Videobrowser → Videobrowser
  | .ok b => b
  | .error b => b

/-- The browser in which the thread body ends, by returning or by raising. -/
def threadOutcome : Except Videobrowser (Videobrowser × Int) → Videobrowser
  | .ok r => r.1
  | .error b => b

/-- A browser with seven items and three items per row. -/
def sampleGridBrowser : Videobrowser :=
  { sampleBrowser with
    Items := (List.range 7).map (fun i => sampleItem "/lib/a.mp4" "a.mp4" 10 i)
    settings := { sampleBrowser.settings with ItemsPerRow := 3 } }

/-! ### The filter of the grid -/

/-- The item passes the filter: its file name contains the filter, letter case aside, as
`Util::ContainsInsensitive` tells. -/
def matchesFilter (h : Helpers) (filter : Str) (item : VideobrowserItem) : Bool :=
  h.ContainsInsensitive item.video.filename filter

/-- The items the filter check lets through, in list order: the first item, and the later
items unless the filter is not empty and they do not match it. -/
def shownItems (h : Helpers) (filter : Str) : List VideobrowserItem → List VideobrowserItem
  | [] => []
  | first :: rest => first :: rest.filter (fun it => filter.isEmpty || matchesFilter h filter it)

/-- The item calls of a draw list, in order: the items the grid displays. -/
def displayedCalls (draw : List DrawCall) : List DrawCall := draw.filter DrawCall.isItem

/-- A browser with three items, "a.mp4", "b.mp4" and "c.mp4", and the filter "b". -/
def sampleFilterBrowser : Videobrowser :=
  { sampleBrowser with
    Items := [sampleItem "/lib/a.mp4" "a.mp4" 10 5, sampleItem "/lib/b.mp4" "b.mp4" 20 9,
      sampleItem "/lib/c.mp4" "c.mp4" 1 1]
    Filter := "b".toList }

/-! # Theorems -/

theorem strcmpAux_eq_zero (a b : Str) : strcmpAux a b = 0 ↔ a = b := by
  induction a generalizing b with
  | nil => cases b <;> simp [strcmpAux]
  | cons x xs ih =>
    cases b with
    | nil => simp [strcmpAux]
    | cons y ys =>
      by_cases h : x = y
      · simp [strcmpAux, h, ih]
      · have hn : x.toNat ≠ y.toNat := fun e => h (by rw [← Char.ofNat_toNat x, ← Char.ofNat_toNat y, e])
        simp [strcmpAux, h]
        omega

theorem strcmp_eq_zero (a b : Str) : strcmp a b = 0 ↔ cstr a = cstr b :=
  strcmpAux_eq_zero _ _

theorem cstr_of_no_nul (s : Str) (h : Char.ofNat 0 ∉ s) : cstr s = s := by
  unfold cstr
  rw [List.takeWhile_eq_self_iff]
  intro c hc
  simp only [bne_iff_ne, ne_eq]
  rintro rfl
  exact h hc

theorem handleItem_eq (fs : FileSystem) (exts : List (Str × Bool)) (b : Videobrowser)
    (p : DirEntry) :
    handleItem fs exts b p =
      if throwsAt fs exts p then .error b
      else .ok { b with
        Items := b.Items ++ (scanItem fs exts p).toList
        trace := b.trace ++ (if accepted fs exts p then appendTrace else []) } := by
  unfold handleItem throwsAt scanItem accepted matchingExt funscriptOf
  cases hd : p.is_directory with
  | none => simp
  | some d =>
    cases d
    · cases hf : List.find? (fun ext => strcmp ext.1 (Path.extension p.path) == 0) exts with
      | none => simp [hf]
      | some it =>
        cases he : fs.FileExists (Path.replace_extension p.path ".funscript".toList)
        · simp only [String.toList] at he
          simp [hf, he]
        · simp only [String.toList] at he
          cases hs : p.file_size with
          | none => simp [hf, he]
          | some n =>
            simp [hf, he, itemOf, SDL_AtomicLock, SDL_AtomicUnlock, appendTrace]
    · simp

theorem foldlM_handleItem (fs : FileSystem) (exts : List (Str × Bool)) (es : List DirEntry) :
    ∀ b : Videobrowser, (∀ p ∈ es, throwsAt fs exts p = false) →
      es.foldlM (handleItem fs exts) b =
        .ok { b with
          Items := b.Items ++ es.filterMap (scanItem fs exts)
          trace := b.trace ++
            (es.map (fun p => if accepted fs exts p then appendTrace else [])).flatten } := by
  induction es with
  | nil => intro b _; simp [pure, Except.pure]
  | cons p ps ih =>
    intro b h
    have hp : throwsAt fs exts p = false := h p (List.mem_cons_self _ _)
    have hps : ∀ q ∈ ps, throwsAt fs exts q = false := fun q hq => h q (List.mem_cons_of_mem _ hq)
    rw [List.foldlM_cons, handleItem_eq, hp]
    simp only [Bool.false_eq_true, if_false, bind, Except.bind]
    rw [ih _ hps]
    cases hsi : scanItem fs exts p <;> simp [List.filterMap_cons, hsi]

theorem foldlM_handleItem_ok (fs : FileSystem) (exts : List (Str × Bool)) (es : List DirEntry) :
    ∀ b b' : Videobrowser, es.foldlM (handleItem fs exts) b = .ok b' →
      ∀ p ∈ es, throwsAt fs exts p = false := by
  induction es with
  | nil => intro _ _ _ p hp; cases hp
  | cons q qs ih =>
    intro b b' h p hp
    rw [List.foldlM_cons, handleItem_eq] at h
    cases ht : throwsAt fs exts q
    · rcases List.mem_cons.1 hp with rfl | hmem
      · exact ht
      · simp only [ht, Bool.false_eq_true, if_false, bind, Except.bind] at h
        exact ih _ _ h p hmem
    · simp [ht, bind, Except.bind] at h

theorem scanPath_eq (fs : FileSystem) (exts : List (Str × Bool)) (b : Videobrowser)
    (sPath : LibraryPath) (h : pathThrows fs exts sPath = false) :
    scanPath fs exts b sPath =
      .ok { b with
        Items := b.Items ++ (visited fs sPath).filterMap (scanItem fs exts)
        trace := b.trace ++ pathTrace fs exts sPath } := by
  have hstream : (if sPath.recursive then fs.recursive_directory_iterator sPath.path
      else fs.directory_iterator sPath.path) = streamOf fs sPath := rfl
  unfold scanPath iterate
  simp only [hstream]
  unfold pathThrows at h
  unfold pathTrace visited entriesTrace
  cases hec : (streamOf fs sPath).ec
  · simp only [hec, Bool.not_false, Bool.true_and, Bool.or_eq_false_iff] at h
    have hall : ∀ p ∈ (streamOf fs sPath).entries, throwsAt fs exts p = false := by
      intro p hp
      cases ht : throwsAt fs exts p
      · rfl
      · have : (streamOf fs sPath).entries.any (throwsAt fs exts) = true :=
          List.any_eq_true.2 ⟨p, hp, ht⟩
        rw [h.1] at this
        exact absurd this (by decide)
    rw [foldlM_handleItem fs exts _ b hall]
    simp [h.2]
  · simp

theorem scanPath_ok (fs : FileSystem) (exts : List (Str × Bool)) (b b' : Videobrowser)
    (sPath : LibraryPath) (h : scanPath fs exts b sPath = .ok b') :
    pathThrows fs exts sPath = false := by
  have hstream : (if sPath.recursive then fs.recursive_directory_iterator sPath.path
      else fs.directory_iterator sPath.path) = streamOf fs sPath := rfl
  unfold scanPath iterate at h
  simp only [hstream] at h
  unfold pathThrows
  cases hec : (streamOf fs sPath).ec
  · simp only [hec, Bool.false_eq_true, if_false] at h
    cases hf : List.foldlM (handleItem fs exts) b (streamOf fs sPath).entries with
    | error e => simp [hf] at h
    | ok b1 =>
      have hall := foldlM_handleItem_ok fs exts _ b b1 hf
      cases hinc : (streamOf fs sPath).incrementThrows
      · have hany : (streamOf fs sPath).entries.any (throwsAt fs exts) = false := by
          cases ha : (streamOf fs sPath).entries.any (throwsAt fs exts)
          · rfl
          · obtain ⟨p, hp, ht⟩ := List.any_eq_true.1 ha
            rw [hall p hp] at ht
            exact absurd ht (by decide)
        simp [hany]
      · simp [hf, hinc] at h
  · simp

theorem foldlM_scanPath (fs : FileSystem) (exts : List (Str × Bool)) (sps : List LibraryPath) :
    ∀ b : Videobrowser, (∀ s ∈ sps, pathThrows fs exts s = false) →
      sps.foldlM (scanPath fs exts) b =
        .ok { b with
          Items := b.Items ++ found fs exts sps
          trace := b.trace ++ (sps.map (pathTrace fs exts)).flatten } := by
  induction sps with
  | nil => intro b _; simp [pure, Except.pure, found]
  | cons s ss ih =>
    intro b h
    have hs : pathThrows fs exts s = false := h s (List.mem_cons_self _ _)
    have hss : ∀ q ∈ ss, pathThrows fs exts q = false :=
      fun q hq => h q (List.mem_cons_of_mem _ hq)
    rw [List.foldlM_cons, scanPath_eq fs exts b s hs]
    simp only [bind, Except.bind]
    rw [ih _ hss]
    simp [found, List.flatMap_cons, List.filterMap_append]

theorem foldlM_scanPath_ok (fs : FileSystem) (exts : List (Str × Bool))
    (sps : List LibraryPath) :
    ∀ b b' : Videobrowser, sps.foldlM (scanPath fs exts) b = .ok b' →
      ∀ s ∈ sps, pathThrows fs exts s = false := by
  induction sps with
  | nil => intro _ _ _ s hs; cases hs
  | cons q qs ih =>
    intro b b' h s hs
    rw [List.foldlM_cons] at h
    cases hq : scanPath fs exts b q with
    | error e => simp [hq, bind, Except.bind] at h
    | ok b1 =>
      rcases List.mem_cons.1 hs with rfl | hmem
      · exact scanPath_ok fs exts b b1 _ hq
      · simp only [hq, bind, Except.bind] at h
        exact ih _ _ h s hmem

theorem updateLibrary_eq (std : StdSort) (fs : FileSystem) (exts : List (Str × Bool))
    (b : Videobrowser) (h : ∀ s ∈ b.settings.SearchPaths, pathThrows fs exts s = false) :
    updateLibrary std fs exts b =
      .ok ({ b with
        Items := std.sort newerFirst (found fs exts b.settings.SearchPaths)
        trace := b.trace ++ scanTrace fs exts b.settings.SearchPaths }, 0) := by
  unfold updateLibrary
  simp only [SDL_AtomicLock, SDL_AtomicUnlock]
  rw [foldlM_scanPath fs exts _ _ h]
  simp [scanTrace, appendTrace]

theorem updateLibrary_ok (std : StdSort) (fs : FileSystem) (exts : List (Str × Bool))
    (b : Videobrowser) (r : Videobrowser × Int) (h : updateLibrary std fs exts b = .ok r) :
    ∀ s ∈ b.settings.SearchPaths, pathThrows fs exts s = false := by
  unfold updateLibrary at h
  simp only [SDL_AtomicLock, SDL_AtomicUnlock] at h
  split at h
  · cases h
  · next b1 hb1 => exact foldlM_scanPath_ok fs exts _ _ b1 hb1

/-- The comparator of the scan is a strict weak ordering. -/
theorem newerFirst_strictWeakOrder : StrictWeakOrder newerFirst := by
  refine ⟨?_, ?_, ?_⟩
  · intro a
    simp [newerFirst]
  · intro a b c hab hbc
    simp only [newerFirst, decide_eq_true_eq] at hab hbc ⊢
    omega
  · intro a b c hab hbc
    simp only [newerFirst, decide_eq_false_iff_not] at hab hbc ⊢
    omega

/-- Whatever function `std::sort` is, it leaves the items with non-increasing timestamps. -/
theorem StdSort.sorted_newerFirst (std : StdSort) (l : List VideobrowserItem) :
    (std.sort newerFirst l).Pairwise (fun a b => a.video.timestamp ≥ b.video.timestamp) := by
  refine (std.sorted newerFirst l newerFirst_strictWeakOrder).imp ?_
  intro a b hba
  simp only [newerFirst, decide_eq_false_iff_not] at hba
  omega

/-! ### The three conditions of the scan -/

theorem Path.filename_subset (p : Str) : Path.filename p ⊆ p := by
  intro c hc
  unfold Path.filename at hc
  have h1 := List.takeWhile_subset (fun c => c != '/') (List.mem_reverse.1 hc)
  exact List.mem_reverse.1 h1

theorem Path.extension_subset (p : Str) : Path.extension p ⊆ p := by
  intro c hc
  unfold Path.extension at hc
  simp only at hc
  split at hc
  · cases hc
  · split at hc
    · next hdot =>
      split at hc
      · cases hc
      · rcases List.mem_cons.1 hc with rfl | hc'
        · exact Path.filename_subset p hdot
        · have h1 := List.takeWhile_subset (fun c => c != '.') (List.mem_reverse.1 hc')
          exact Path.filename_subset p (List.mem_reverse.1 h1)
    · cases hc

/-- For names without NUL, `accepted` is the conjunction of the three conditions. -/
theorem accepted_iff_paired (fs : FileSystem) (exts : List (Str × Bool)) (p : DirEntry)
    (hexts : ∀ ext ∈ exts, Char.ofNat 0 ∉ ext.1) (hp : Char.ofNat 0 ∉ p.path) :
    accepted fs exts p = true ↔ paired fs exts p := by
  have hext : cstr (Path.extension p.path) = Path.extension p.path :=
    cstr_of_no_nul _ (fun h => hp (Path.extension_subset _ h))
  have hfind : (matchingExt exts p).isSome = true ↔
      ∃ ext ∈ exts, ext.1 = Path.extension p.path := by
    unfold matchingExt
    rw [List.find?_isSome]
    constructor
    · rintro ⟨x, hx, hcmp⟩
      refine ⟨x, hx, ?_⟩
      have h0 : strcmp x.1 (Path.extension p.path) = 0 := by simpa using hcmp
      rw [strcmp_eq_zero, hext, cstr_of_no_nul _ (hexts x hx)] at h0
      exact h0
    · rintro ⟨x, hx, he⟩
      refine ⟨x, hx, ?_⟩
      have h0 : strcmp x.1 (Path.extension p.path) = 0 := by
        rw [strcmp_eq_zero, hext, cstr_of_no_nul _ (hexts x hx)]
        exact he
      simpa using h0
  unfold accepted paired funscriptOf
  rw [Bool.and_eq_true, Bool.and_eq_true, hfind, decide_eq_true_eq]
  constructor
  · rintro ⟨⟨hd, he⟩, hf⟩
    exact ⟨hd, he, hf⟩
  · rintro ⟨hd, he, hf⟩
    exact ⟨⟨hd, he⟩, hf⟩

/-- An entry that is accepted and whose size is read contributes one item, flagged as
having a script; any other entry contributes none. -/
theorem scanItem_isSome_iff (fs : FileSystem) (exts : List (Str × Bool)) (p : DirEntry) :
    (scanItem fs exts p).isSome = true ↔
      accepted fs exts p = true ∧ p.file_size.isSome = true := by
  unfold scanItem
  cases ha : accepted fs exts p
  · simp
  · have hm : (matchingExt exts p).isSome = true := by
      unfold accepted at ha
      simp only [Bool.and_eq_true] at ha
      exact ha.1.2
    obtain ⟨it, hit⟩ := Option.isSome_iff_exists.1 hm
    cases hs : p.file_size <;> simp [hit]

theorem scanItem_hasScript (fs : FileSystem) (exts : List (Str × Bool)) (p : DirEntry)
    (item : VideobrowserItem) (h : scanItem fs exts p = some item) :
    item.video.hasScript = true ∧ item.video.path = p.path ∧
      item.video.timestamp = GetFileAge fs p.path := by
  unfold scanItem at h
  split at h
  · split at h
    · cases h
      exact ⟨rfl, rfl, rfl⟩
    · cases h
  · cases h

/-- For an entry whose kind and size are read (names without NUL), `handleItem` appends one item,
flagged as having a script, exactly when the three conditions hold, and leaves
the browser as it is otherwise. -/
theorem handleItem_adds_iff_paired (fs : FileSystem) (exts : List (Str × Bool))
    (b : Videobrowser) (p : DirEntry) (hexts : ∀ ext ∈ exts, Char.ofNat 0 ∉ ext.1)
    (hp : Char.ofNat 0 ∉ p.path) (hdir : p.is_directory.isSome = true)
    (hsize : p.file_size.isSome = true) :
    (paired fs exts p →
      ∃ item, item.video.hasScript = true ∧ item.video.path = p.path ∧
        handleItem fs exts b p =
          .ok { b with Items := b.Items ++ [item], trace := b.trace ++ appendTrace }) ∧
    (¬ paired fs exts p → handleItem fs exts b p = .ok b) := by
  have hthrow : throwsAt fs exts p = false := by
    unfold throwsAt
    obtain ⟨n, hn⟩ := Option.isSome_iff_exists.1 hsize
    obtain ⟨d, hd⟩ := Option.isSome_iff_exists.1 hdir
    simp [hn, hd]
  rw [handleItem_eq, hthrow]
  constructor
  · intro hpaired
    have hacc := (accepted_iff_paired fs exts p hexts hp).2 hpaired
    obtain ⟨item, hitem⟩ :=
      Option.isSome_iff_exists.1 ((scanItem_isSome_iff fs exts p).2 ⟨hacc, hsize⟩)
    have hprops := scanItem_hasScript fs exts p item hitem
    exact ⟨item, hprops.1, hprops.2.1, by simp [hitem, hacc]⟩
  · intro hnot
    have hacc : accepted fs exts p = false := by
      cases ha : accepted fs exts p
      · rfl
      · exact absurd ((accepted_iff_paired fs exts p hexts hp).1 ha) hnot
    have hnone : scanItem fs exts p = none := by
      unfold scanItem
      simp [hacc]
    simp [hnone, hacc]

/-! ### The search paths reported by a trace -/

theorem doneIterating_append (t1 t2 : List Act) :
    doneIterating (t1 ++ t2) = doneIterating t1 ++ doneIterating t2 := by
  induction t1 with
  | nil => rfl
  | cons a t ih => cases a <;> simp [doneIterating, ih]

theorem doneIterating_entriesTrace (fs : FileSystem) (exts : List (Str × Bool))
    (es : List DirEntry) : doneIterating (entriesTrace fs exts es) = [] := by
  induction es with
  | nil => rfl
  | cons p ps ih =>
    have hcons : entriesTrace fs exts (p :: ps) =
        (if accepted fs exts p then appendTrace else []) ++ entriesTrace fs exts ps := by
      simp [entriesTrace]
    rw [hcons, doneIterating_append, ih]
    split <;> rfl

theorem doneIterating_scanTrace (fs : FileSystem) (exts : List (Str × Bool))
    (sps : List LibraryPath) : doneIterating (scanTrace fs exts sps) = sps := by
  have hpaths : doneIterating ((sps.map (pathTrace fs exts)).flatten) = sps := by
    induction sps with
    | nil => rfl
    | cons s ss ih =>
      rw [List.map_cons, List.flatten_cons, doneIterating_append, ih]
      unfold pathTrace
      rw [doneIterating_append, doneIterating_entriesTrace]
      rfl
  unfold scanTrace
  rw [doneIterating_append, doneIterating_append, hpaths]
  simp [appendTrace, doneIterating]

theorem visited_flatMap (fs : FileSystem) (sps : List LibraryPath) :
    sps.flatMap (visited fs) =
      (sps.filter (fun s => !(streamOf fs s).ec)).flatMap (fun s => (streamOf fs s).entries) := by
  induction sps with
  | nil => rfl
  | cons s ss ih =>
    rw [List.flatMap_cons, ih, List.filter_cons]
    unfold visited
    cases hec : (streamOf fs s).ec <;> simp

/-- When the timestamp cannot be read, `GetFileAge` returns its fallback: 0 on WIN32 when the
file cannot be opened, otherwise the value `last_write_time` returns on error. -/
theorem GetFileAge_unreadable (fs : FileSystem) (path : Str)
    (h : timestampUnreadable fs path = true) :
    GetFileAge fs path =
      if fs.win32 && !(fs.times path).createFile then 0 else fs.fileTimeMin := by
  unfold timestampUnreadable at h
  unfold GetFileAge
  cases hw : fs.win32
  · simp only [hw, Bool.false_eq_true, if_false] at h
    obtain hl := Option.isNone_iff_eq_none.1 h
    simp [hl]
  · simp only [hw, if_true] at h
    cases hc : (fs.times path).createFile
    · simp
    · simp only [hc, Bool.not_true, Bool.false_or, Bool.and_eq_true] at h
      have h1 := Option.isNone_iff_eq_none.1 h.1
      have h2 := Option.isNone_iff_eq_none.1 h.2
      simp [h1, h2]

/-! ### What a frame leaves unchanged -/

theorem Clamp_range (v : Int) : 1 ≤ Util.Clamp v 1 25 ∧ Util.Clamp v 1 25 ≤ 25 := by
  unfold Util.Clamp
  exact ⟨le_max_left _ _, max_le (by decide) (min_le_right _ _)⟩

theorem fileClickHandler_settings (b : Videobrowser) (item : VideobrowserItem) :
    (fileClickHandler b item).settings = b.settings ∧
      (fileClickHandler b item).Filter = b.Filter := by
  unfold fileClickHandler
  split <;> exact ⟨rfl, rfl⟩

theorem drawItem_eq (h : Helpers) (inp : FrameInput) (st : GridState)
    (item : VideobrowserItem) :
    (drawItem h inp st item).browser = clickEffect h inp st.pos st.browser item ∧
      (drawItem h inp st item).draw = st.draw ++ [itemCall h item] ∧
      (drawItem h inp st item).index = st.index ∧
      (drawItem h inp st item).pos = st.pos := by
  cases hd : h.IsDirectory item <;> cases ht : (item.texId != 0) <;>
    cases hc : inp.clicked st.pos <;>
    cases hh : (inp.hovered st.pos && !st.itemFocussed) <;>
    simp [drawItem, clickEffect, itemCall, hd, ht, hc, hh]

theorem clickEffect_settings (h : Helpers) (inp : FrameInput) (pos : Nat) (b : Videobrowser)
    (item : VideobrowserItem) :
    (clickEffect h inp pos b item).settings = b.settings ∧
      (clickEffect h inp pos b item).Filter = b.Filter := by
  unfold clickEffect
  split
  · split
    · exact ⟨rfl, rfl⟩
    · exact fileClickHandler_settings b item
  · exact ⟨rfl, rfl⟩

theorem gridStep_eq (h : Helpers) (inp : FrameInput) (st : GridState)
    (item : VideobrowserItem) :
    (gridStep h inp st item).browser =
        (if shown h st.index st.browser.Filter item then
          clickEffect h inp st.pos
            { st.browser with trace := st.browser.trace ++ [Act.ItemsAccess] } item
        else { st.browser with trace := st.browser.trace ++ [Act.ItemsAccess] }) ∧
      (gridStep h inp st item).draw =
        (if shown h st.index st.browser.Filter item then
          st.draw ++ [itemCall h item] ++
            (if Int.tmod (st.index + 1) st.browser.settings.ItemsPerRow != 0 then
              [DrawCall.SameLine] else [])
        else st.draw) ∧
      (gridStep h inp st item).index =
        (if shown h st.index st.browser.Filter item then st.index + 1 else st.index) ∧
      (gridStep h inp st item).pos = st.pos + 1 := by
  have hd := drawItem_eq h inp
    { st with browser := { st.browser with trace := st.browser.trace ++ [Act.ItemsAccess] } } item
  have hs := clickEffect_settings h inp st.pos
    { st.browser with trace := st.browser.trace ++ [Act.ItemsAccess] } item
  obtain ⟨hd1, hd2, hd3, hd4⟩ := hd
  simp only at hd1 hd2 hd3 hd4 hs
  unfold gridStep shown
  simp only
  split
  · next hskip => simp [hskip]
  · next hskip =>
    simp only [hskip, Bool.not_false, if_true]
    rw [hd1, hd3]
    simp only [hs.1]
    split
    · simp [hd1, hd2, hd3, hd4]
    · simp [hd1, hd2, hd3, hd4]

theorem gridStep_settings (h : Helpers) (inp : FrameInput) (st : GridState)
    (item : VideobrowserItem) :
    (gridStep h inp st item).browser.settings = st.browser.settings ∧
      (gridStep h inp st item).browser.Filter = st.browser.Filter := by
  rw [(gridStep_eq h inp st item).1]
  split
  · exact clickEffect_settings h inp st.pos _ item
  · exact ⟨rfl, rfl⟩

theorem foldl_gridStep_settings (h : Helpers) (inp : FrameInput) (items : List VideobrowserItem) :
    ∀ st : GridState,
      (items.foldl (gridStep h inp) st).browser.settings = st.browser.settings ∧
        (items.foldl (gridStep h inp) st).browser.Filter = st.browser.Filter := by
  induction items with
  | nil => intro st; exact ⟨rfl, rfl⟩
  | cons item rest ih =>
    intro st
    rw [List.foldl_cons]
    have h1 := ih (gridStep h inp st item)
    have h2 := gridStep_settings h inp st item
    exact ⟨h1.1.trans h2.1, h1.2.trans h2.2⟩

theorem menuBar_range (inp : FrameInput) (b : Videobrowser)
    (hb : 1 ≤ b.settings.ItemsPerRow ∧ b.settings.ItemsPerRow ≤ 25) :
    1 ≤ (menuBar inp b).settings.ItemsPerRow ∧ (menuBar inp b).settings.ItemsPerRow ≤ 25 := by
  unfold menuBar
  split
  · split
    · exact Clamp_range _
    · exact hb
  · exact hb

theorem navInput_range (inp : FrameInput) (b : Videobrowser)
    (hb : 1 ≤ b.settings.ItemsPerRow ∧ b.settings.ItemsPerRow ≤ 25) :
    1 ≤ (navInput inp b).settings.ItemsPerRow ∧ (navInput inp b).settings.ItemsPerRow ≤ 25 := by
  unfold navInput
  split
  · simp only
    split
    · exact hb
    · split
      · exact hb
      · exact hb
  · split
    · exact Clamp_range _
    · split
      · exact Clamp_range _
      · exact hb

theorem frameHead_range (inp : FrameInput) (b : Videobrowser)
    (hb : 1 ≤ b.settings.ItemsPerRow ∧ b.settings.ItemsPerRow ≤ 25) :
    1 ≤ (frameHead inp b).settings.ItemsPerRow ∧
      (frameHead inp b).settings.ItemsPerRow ≤ 25 := by
  unfold frameHead
  apply navInput_range
  have h1 : 1 ≤ (menuBar inp (SDL_AtomicLock
      (if b.CacheNeedsUpdate then updateLibraryCache b else b))).settings.ItemsPerRow ∧
      (menuBar inp (SDL_AtomicLock
      (if b.CacheNeedsUpdate then updateLibraryCache b else b))).settings.ItemsPerRow ≤ 25 := by
    apply menuBar_range
    split <;> exact hb
  split <;> exact h1

theorem ShowBrowserSettings_ItemsPerRow (inp : FrameInput) (b : Videobrowser) :
    (ShowBrowserSettings inp b).settings.ItemsPerRow = b.settings.ItemsPerRow := by
  unfold ShowBrowserSettings
  split
  · rfl
  · split
    · simp only
      split
      · split <;> rfl
      · rfl
    · rfl

theorem Lootcrate_settings (inp : FrameInput) (b : Videobrowser) :
    (Lootcrate inp b).settings = b.settings := by
  unfold Lootcrate
  split
  · rfl
  · split <;> rfl

/-! ### The split of a multiple selection -/

theorem intercalate_snoc (sep : Str) (xs : List Str) (y : Str) (hxs : xs ≠ []) :
    List.intercalate sep (xs ++ [y]) = List.intercalate sep xs ++ sep ++ y := by
  induction xs with
  | nil => exact absurd rfl hxs
  | cons x rest ih =>
    cases rest with
    | nil => simp [List.intercalate, List.intersperse]
    | cons z rest2 =>
      have h2 := ih (by simp)
      simp only [List.intercalate, List.cons_append, List.intersperse, List.flatten_cons,
        List.append_assoc] at h2 ⊢
      show x ++ (sep ++ (List.intersperse sep (z :: (rest2 ++ [y]))).flatten) = _
      rw [h2]

theorem intercalate_snoc_append (sep : Str) (xs : List Str) (y z : Str) :
    List.intercalate sep (xs ++ [y ++ z]) = List.intercalate sep (xs ++ [y]) ++ z := by
  cases xs with
  | nil => simp [List.intercalate, List.intersperse]
  | cons x rest =>
    rw [intercalate_snoc sep _ _ (by simp), intercalate_snoc sep _ _ (by simp)]
    simp [List.append_assoc]

theorem Util.splitStep_inv (result pre suf : Str) (c : Char) (st : Util.SplitState)
    (hres : result = pre ++ c :: suf) (hinv : Util.SplitInv pre st) :
    Util.SplitInv (pre ++ [c]) (Util.splitStep result st c) := by
  obtain ⟨hidx, hlast, hfiles, hcur, hlen, hjoin⟩ := hinv
  have hcut : (result.drop st.last).take (st.index - st.last) = pre.drop st.last := by
    rw [hres, hidx, List.drop_append_of_le_length hlast, List.take_append_of_le_length (by simp)]
    rw [List.take_of_length_le (by simp)]
  unfold Util.splitStep
  by_cases hc : c = '|'
  · subst hc
    simp only [if_true, hcut]
    refine ⟨by simp [hidx], by simp [hidx], ?_, ?_, ?_, ?_⟩
    · intro f hf
      rcases List.mem_append.1 hf with h1 | h1
      · exact hfiles f h1
      · rw [List.mem_singleton.1 h1]
        exact hcur
    · simp [hidx]
    · simp [hlen, List.count_append]
    · have hdrop : (pre ++ ['|']).drop (st.index + 1) = [] := by
        rw [List.drop_eq_nil_iff]
        simp [hidx]
      simp only [hdrop]
      rw [intercalate_snoc _ _ _ (by simp), hjoin]
      simp
  · simp only [hc, if_false]
    have hdrop : (pre ++ [c]).drop st.last = pre.drop st.last ++ [c] :=
      List.drop_append_of_le_length hlast
    refine ⟨by simp [hidx], by simp; omega, hfiles, ?_, ?_, ?_⟩
    · rw [hdrop]
      intro hmem
      rcases List.mem_append.1 hmem with h1 | h1
      · exact hcur h1
      · exact hc (List.mem_singleton.1 h1).symm
    · have hne : (c == '|') = false := by simpa using hc
      simp [hlen, List.count_append, List.count_singleton, hne]
    · rw [hdrop, intercalate_snoc_append, hjoin]

theorem Util.foldl_splitStep_inv (result : Str) (suf : Str) :
    ∀ (pre : Str) (st : Util.SplitState), result = pre ++ suf → Util.SplitInv pre st →
      Util.SplitInv result (suf.foldl (Util.splitStep result) st) := by
  induction suf with
  | nil =>
    intro pre st hres hinv
    rw [List.append_nil] at hres
    rw [hres]
    exact hinv
  | cons c rest ih =>
    intro pre st hres hinv
    rw [List.foldl_cons]
    exact ih (pre ++ [c]) _ (by rw [hres]; simp) (Util.splitStep_inv result pre rest c st hres hinv)

/-! ### Rows of the grid -/

theorem succ_mod_of_ne_zero (n k : Nat) (hn : 1 ≤ n) (h : (k + 1) % n ≠ 0) :
    (k + 1) % n = k % n + 1 := by
  have hlt : k % n < n := Nat.mod_lt _ hn
  have hdiv := Nat.div_add_mod k n
  by_cases hless : k % n + 1 < n
  · have : k + 1 = (k % n + 1) + n * (k / n) := by omega
    rw [this, Nat.add_mul_mod_self_left, Nat.mod_eq_of_lt hless]
  · exfalso
    apply h
    have hfull : k % n + 1 = n := by omega
    have : k + 1 = n * (k / n + 1) := by
      rw [Nat.mul_add, Nat.mul_one]
      omega
    rw [this, Nat.mul_mod_right]

theorem succ_mod_of_eq_zero (n k : Nat) (hn : 1 ≤ n) (h : (k + 1) % n = 0) : 1 + k % n = n := by
  have hlt : k % n < n := Nat.mod_lt _ hn
  have hdiv := Nat.div_add_mod k n
  by_cases hless : k % n + 1 < n
  · exfalso
    have : k + 1 = (k % n + 1) + n * (k / n) := by omega
    rw [this, Nat.add_mul_mod_self_left, Nat.mod_eq_of_lt hless] at h
    omega
  · omega

theorem layoutFrom_snoc (n : Nat) (cs : List DrawCall) (c : DrawCall) :
    ∀ k, layoutFrom n k (cs ++ [c]) =
      layoutFrom n k cs ++
        (if (k + cs.length + 1) % n ≠ 0 then [c, DrawCall.SameLine] else [c]) := by
  induction cs with
  | nil => intro k; simp [layoutFrom]
  | cons d ds ih =>
    intro k
    have hlen : k + 1 + ds.length + 1 = k + (d :: ds).length + 1 := by
      simp only [List.length_cons]
      omega
    show (if (k + 1) % n ≠ 0 then [d, DrawCall.SameLine] else [d]) ++
        layoutFrom n (k + 1) (ds ++ [c]) = _
    rw [ih (k + 1), hlen]
    simp only [layoutFrom, List.append_assoc]

theorem filter_layoutFrom (n : Nat) (cs : List DrawCall) (hcs : ∀ c ∈ cs, c.isItem = true) :
    ∀ k, (layoutFrom n k cs).filter DrawCall.isItem = cs := by
  induction cs with
  | nil => intro k; rfl
  | cons d ds ih =>
    intro k
    have hd : d.isItem = true := hcs d (List.mem_cons_self _ _)
    have hds : ∀ c ∈ ds, c.isItem = true := fun c hc => hcs c (List.mem_cons_of_mem _ hc)
    unfold layoutFrom
    have hsame : DrawCall.SameLine.isItem = false := rfl
    split <;> simp [List.filter_cons, hd, hsame, ih hds (k + 1)]

theorem layoutFrom_head (n : Nat) (cs : List DrawCall) (hcs : ∀ c ∈ cs, c.isItem = true)
    (k : Nat) : (layoutFrom n k cs).head? ≠ some DrawCall.SameLine := by
  cases cs with
  | nil => simp [layoutFrom]
  | cons d ds =>
    have hd : d.isItem = true := hcs d (List.mem_cons_self _ _)
    unfold layoutFrom
    split <;>
    · simp only [List.cons_append, List.head?_cons, ne_eq, Option.some.injEq]
      rintro rfl
      simp [DrawCall.isItem] at hd

theorem rowsOf_item (c : DrawCall) (hc : c.isItem = true) (l : List DrawCall)
    (hl : l.head? ≠ some DrawCall.SameLine) : rowsOf (c :: l) = [c] :: rowsOf l := by
  cases c with
  | SameLine => simp [DrawCall.isItem] at hc
  | ImageButtonEx label =>
    rw [rowsOf]
    · split
      · next heq _ => exact absurd heq hl
      · rfl
    · intro hsame; cases hsame
  | Button label =>
    rw [rowsOf]
    · split
      · next heq _ => exact absurd heq hl
      · rfl
    · intro hsame; cases hsame

theorem rowsOf_item_sameLine (c : DrawCall) (hc : c.isItem = true) (l : List DrawCall) :
    rowsOf (c :: DrawCall.SameLine :: l) =
      match rowsOf l with
      | r :: rs => (c :: r) :: rs
      | [] => [[c]] := by
  have hs : rowsOf (DrawCall.SameLine :: l) = rowsOf l := by simp [rowsOf]
  cases c with
  | SameLine => simp [DrawCall.isItem] at hc
  | ImageButtonEx label =>
    rw [rowsOf]
    · rw [hs]
      cases rowsOf l <;> simp
    · intro hsame; cases hsame
  | Button label =>
    rw [rowsOf]
    · rw [hs]
      cases rowsOf l <;> simp
    · intro hsame; cases hsame

theorem mem_dropLast_cons {α : Type} (r r0 : α) (rest : List α)
    (h : r ∈ (r0 :: rest).dropLast) : rest ≠ [] ∧ (r = r0 ∨ r ∈ rest.dropLast) := by
  cases rest with
  | nil => simp at h
  | cons x xs =>
    rw [List.dropLast_cons₂] at h
    exact ⟨by simp, List.mem_cons.1 h⟩

theorem rowsOf_layoutFrom (n : Nat) (hn : 1 ≤ n) (cs : List DrawCall)
    (hcs : ∀ c ∈ cs, c.isItem = true) :
    ∀ k, RowsFrom n k (rowsOf (layoutFrom n k cs)) := by
  induction cs with
  | nil => intro k; simp [layoutFrom, rowsOf, RowsFrom]
  | cons d ds ih =>
    intro k
    have hd : d.isItem = true := hcs d (List.mem_cons_self _ _)
    have hds : ∀ c ∈ ds, c.isItem = true := fun c hc => hcs c (List.mem_cons_of_mem _ hc)
    have hrec := ih hds (k + 1)
    by_cases hmod : (k + 1) % n ≠ 0
    · have hlay : layoutFrom n k (d :: ds) =
          d :: DrawCall.SameLine :: layoutFrom n (k + 1) ds := by
        simp [layoutFrom, hmod]
      rw [hlay, rowsOf_item_sameLine d hd]
      cases hrows : rowsOf (layoutFrom n (k + 1) ds) with
      | nil => simp [RowsFrom]
      | cons r rs =>
        rw [hrows] at hrec
        simp only [RowsFrom] at hrec ⊢
        refine ⟨fun hne => ?_, hrec.2⟩
        have := hrec.1 hne
        rw [succ_mod_of_ne_zero n k hn hmod] at this
        simp only [List.length_cons]
        omega
    · have hzero : (k + 1) % n = 0 := by
        by_contra hne
        exact hmod hne
      have hlay : layoutFrom n k (d :: ds) = d :: layoutFrom n (k + 1) ds := by
        simp [layoutFrom, hzero]
      rw [hlay, rowsOf_item d hd _ (layoutFrom_head n ds hds (k + 1))]
      simp only [RowsFrom]
      refine ⟨fun _ => ?_, ?_⟩
      · simpa using succ_mod_of_eq_zero n k hn hzero
      · intro r hr
        cases hrows : rowsOf (layoutFrom n (k + 1) ds) with
        | nil => rw [hrows] at hr; simp at hr
        | cons r0 rest =>
          rw [hrows] at hr hrec
          simp only [RowsFrom] at hrec
          obtain ⟨hne, hcase⟩ := mem_dropLast_cons r r0 rest hr
          rcases hcase with rfl | hmem
          · have := hrec.1 hne
            rw [hzero] at this
            omega
          · exact hrec.2 r hmem

theorem itemCall_isItem (h : Helpers) (item : VideobrowserItem) :
    (itemCall h item).isItem = true := by
  unfold itemCall
  split <;> rfl

theorem natCast_bne_zero (x : Nat) : ((x : Int) != 0) = decide (x ≠ 0) := by
  by_cases hx : x = 0
  · subst hx
    rfl
  · have hx2 : (x : Int) ≠ 0 := by exact_mod_cast hx
    simp [hx, hx2]

theorem tmod_succ_ne_zero (m n : Nat) :
    (Int.tmod ((m : Int) + 1) (n : Int) != 0) = decide ((0 + m + 1) % n ≠ 0) := by
  have hcast : ((m : Int) + 1) = ((m + 1 : Nat) : Int) := by push_cast; rfl
  rw [hcast, ← Int.ofNat_tmod, Nat.zero_add]
  exact natCast_bne_zero _

theorem gridStep_layout (h : Helpers) (inp : FrameInput) (n : Nat) (st : GridState)
    (item : VideobrowserItem) (cs : List DrawCall)
    (hn : st.browser.settings.ItemsPerRow = n) (hcs : ∀ c ∈ cs, c.isItem = true)
    (hdraw : st.draw = layoutFrom n 0 cs) (hindex : st.index = cs.length) :
    ∃ cs2, (∀ c ∈ cs2, c.isItem = true) ∧
      (gridStep h inp st item).draw = layoutFrom n 0 cs2 ∧
      (gridStep h inp st item).index = cs2.length := by
  obtain ⟨_, hd, hi, _⟩ := gridStep_eq h inp st item
  by_cases hshown : shown h st.index st.browser.Filter item = true
  · rw [if_pos hshown] at hd hi
    refine ⟨cs ++ [itemCall h item], ?_, ?_, ?_⟩
    · intro c hc
      rcases List.mem_append.1 hc with h1 | h1
      · exact hcs c h1
      · rw [List.mem_singleton.1 h1]
        exact itemCall_isItem h item
    · rw [hd, layoutFrom_snoc, hdraw, hn, hindex, tmod_succ_ne_zero]
      by_cases hm : (cs.length + 1) % n = 0
      · simp [hm]
      · simp [hm]
    · rw [hi, hindex]
      simp
  · rw [if_neg hshown] at hd hi
    exact ⟨cs, hcs, hd.trans hdraw, hi.trans hindex⟩

theorem foldl_gridStep_layout (h : Helpers) (inp : FrameInput) (n : Nat)
    (items : List VideobrowserItem) :
    ∀ (st : GridState) (cs : List DrawCall), st.browser.settings.ItemsPerRow = n →
      (∀ c ∈ cs, c.isItem = true) → st.draw = layoutFrom n 0 cs → st.index = cs.length →
      ∃ cs2, (∀ c ∈ cs2, c.isItem = true) ∧
        (items.foldl (gridStep h inp) st).draw = layoutFrom n 0 cs2 ∧
        (items.foldl (gridStep h inp) st).index = cs2.length := by
  induction items with
  | nil => intro st cs _ hcs hdraw hindex; exact ⟨cs, hcs, hdraw, hindex⟩
  | cons item rest ih =>
    intro st cs hn hcs hdraw hindex
    obtain ⟨cs2, h1, h2, h3⟩ := gridStep_layout h inp n st item cs hn hcs hdraw hindex
    rw [List.foldl_cons]
    exact ih _ cs2 (by rw [(gridStep_settings h inp st item).1]; exact hn) h1 h2 h3

/-! ### Lock discipline of traces -/

theorem disciplineFrom_append (t1 t2 : List Act) :
    ∀ a, disciplineFrom a (t1 ++ t2) =
      (disciplineFrom a t1).bind (fun c => disciplineFrom c t2) := by
  induction t1 with
  | nil => intro a; rfl
  | cons x xs ih =>
    intro a
    cases x <;> cases a <;> simp [disciplineFrom, ih]

theorem Runs.append {a c d : Bool} {t1 t2 : List Act} (h1 : Runs a c t1) (h2 : Runs c d t2) :
    Runs a d (t1 ++ t2) := by
  unfold Runs at *
  rw [disciplineFrom_append, h1]
  exact h2

theorem Reaches.refl (a : Bool) (b : Videobrowser) : Reaches a a b b :=
  ⟨[], by simp, rfl⟩

theorem Reaches.trans {a c d : Bool} {b1 b2 b3 : Videobrowser} (h1 : Reaches a c b1 b2)
    (h2 : Reaches c d b2 b3) : Reaches a d b1 b3 := by
  obtain ⟨t1, e1, r1⟩ := h1
  obtain ⟨t2, e2, r2⟩ := h2
  exact ⟨t1 ++ t2, by rw [e2, e1, List.append_assoc], r1.append r2⟩

theorem Reaches.of_trace {a c : Bool} {b1 b2 : Videobrowser} (t : List Act)
    (h : b2.trace = b1.trace ++ t) (hr : Runs a c t) : Reaches a c b1 b2 :=
  ⟨t, h, hr⟩

theorem Reaches.of_eq {a : Bool} {b1 b2 : Videobrowser} (h : b2.trace = b1.trace) :
    Reaches a a b1 b2 :=
  ⟨[], by simp [h], rfl⟩

theorem handleItem_reaches (fs : FileSystem) (exts : List (Str × Bool)) (b : Videobrowser)
    (p : DirEntry) : Reaches false false b (outcome (handleItem fs exts b p)) := by
  rw [handleItem_eq]
  split
  · exact Reaches.refl _ _
  · split
    · exact Reaches.of_trace appendTrace rfl rfl
    · exact Reaches.of_eq (by simp [outcome])

theorem foldlM_reaches {α : Type} (f : Videobrowser → α → Except Videobrowser Videobrowser)
    (hf : ∀ b x, Reaches false false b (outcome (f b x))) (xs : List α) :
    ∀ b, Reaches false false b (outcome (xs.foldlM f b)) := by
  induction xs with
  | nil => intro b; exact Reaches.refl _ _
  | cons x rest ih =>
    intro b
    rw [List.foldlM_cons]
    have hx := hf b x
    cases hfx : f b x with
    | error e =>
      rw [hfx] at hx
      exact hx
    | ok b1 =>
      rw [hfx] at hx
      exact hx.trans (ih b1)

theorem iterate_reaches (fs : FileSystem) (exts : List (Str × Bool)) (b : Videobrowser)
    (it : DirStream) : Reaches false false b (outcome (iterate fs exts b it)) := by
  have hes := foldlM_reaches (handleItem fs exts) (handleItem_reaches fs exts) it.entries b
  unfold iterate
  split
  · exact Reaches.refl _ _
  · cases hrun : List.foldlM (handleItem fs exts) b it.entries with
    | error e =>
      rw [hrun] at hes
      exact hes
    | ok b1 =>
      rw [hrun] at hes
      cases it.incrementThrows
      · exact hes
      · exact hes

theorem scanPath_reaches (fs : FileSystem) (exts : List (Str × Bool)) (b : Videobrowser)
    (sPath : LibraryPath) : Reaches false false b (outcome (scanPath fs exts b sPath)) := by
  have hit := iterate_reaches fs exts b
    (if sPath.recursive then fs.recursive_directory_iterator sPath.path
      else fs.directory_iterator sPath.path)
  unfold scanPath
  simp only
  cases hrun : iterate fs exts b
      (if sPath.recursive then fs.recursive_directory_iterator sPath.path
        else fs.directory_iterator sPath.path) with
  | error e =>
    rw [hrun] at hit
    exact hit
  | ok b1 =>
    rw [hrun] at hit
    exact hit.trans (Reaches.of_trace [Act.DoneIterating sPath.path sPath.recursive] rfl rfl)

theorem updateLibrary_reaches (std : StdSort) (fs : FileSystem) (exts : List (Str × Bool))
    (b : Videobrowser) :
    Reaches false false b (threadOutcome (updateLibrary std fs exts b)) := by
  have hclear : Reaches false false b
      (SDL_AtomicUnlock
        { SDL_AtomicLock b with
          Items := [], trace := (SDL_AtomicLock b).trace ++ [Act.ItemsAccess] }) :=
    Reaches.of_trace appendTrace (by simp [SDL_AtomicLock, SDL_AtomicUnlock, appendTrace]) rfl
  have hpaths := foldlM_reaches (scanPath fs exts) (scanPath_reaches fs exts)
    (SDL_AtomicUnlock
        { SDL_AtomicLock b with
          Items := [], trace := (SDL_AtomicLock b).trace ++ [Act.ItemsAccess] }).settings.SearchPaths
    (SDL_AtomicUnlock
        { SDL_AtomicLock b with
          Items := [], trace := (SDL_AtomicLock b).trace ++ [Act.ItemsAccess] })
  unfold updateLibrary
  simp only
  split
  · next e he =>
    rw [he] at hpaths
    exact hclear.trans hpaths
  · next b1 hb1 =>
    rw [hb1] at hpaths
    refine (hclear.trans hpaths).trans ?_
    exact Reaches.of_trace appendTrace
      (by simp [SDL_AtomicLock, SDL_AtomicUnlock, appendTrace, threadOutcome, outcome]) rfl

theorem ctor_reaches (self : Videobrowser) (settings : VideobrowserSettings)
    (vidCache : List Video) :
    Reaches false false self (Videobrowser.ctor self settings vidCache) := by
  have hfold : ∀ (cache : List Video) (b : Videobrowser),
      Reaches true true b
        (cache.foldl
          (fun (self : Videobrowser) cached =>
            { self with
              Items := self.Items ++ [VideobrowserItem.ofVideo cached]
              trace := self.trace ++ [Act.ItemsAccess] })
          b) := by
    intro cache
    induction cache with
    | nil => intro b; exact Reaches.refl _ _
    | cons v vs ih =>
      intro b
      rw [List.foldl_cons]
      have hstep : Reaches true true b
          { b with
            Items := b.Items ++ [VideobrowserItem.ofVideo v]
            trace := b.trace ++ [Act.ItemsAccess] } :=
        Reaches.of_trace [Act.ItemsAccess] rfl rfl
      exact hstep.trans (ih _)
  unfold Videobrowser.ctor
  have hlock : Reaches false true self
      (SDL_AtomicLock
        { ({ self with settings := settings } : Videobrowser) with
          CacheNeedsUpdate := vidCache.isEmpty }) :=
    Reaches.of_trace [Act.AtomicLock] rfl rfl
  exact (hlock.trans (hfold vidCache _)).trans (Reaches.of_trace [Act.AtomicUnlock] rfl rfl)

theorem updateLibraryCache_reaches (a : Bool) (b : Videobrowser) :
    Reaches a a b (updateLibraryCache b) := by
  refine Reaches.of_trace
    [Act.CreateThread "UpdateVideoLibrary" (nextHandle b.trace),
      Act.DetachThread (nextHandle b.trace)] ?_ ?_
  · simp [updateLibraryCache, SDL_CreateThread, SDL_DetachThread]
  · cases a <;> rfl

theorem fileClickHandler_reaches (a : Bool) (b : Videobrowser) (item : VideobrowserItem) :
    Reaches a a b (fileClickHandler b item) := by
  unfold fileClickHandler
  split
  · refine Reaches.of_trace [Act.PushEvent Event.VideobrowserItemClicked] rfl ?_
    cases a <;> rfl
  · exact Reaches.refl _ _

theorem clickEffect_reaches (h : Helpers) (inp : FrameInput) (pos : Nat) (a : Bool)
    (b : Videobrowser) (item : VideobrowserItem) :
    Reaches a a b (clickEffect h inp pos b item) := by
  unfold clickEffect
  split
  · split
    · exact Reaches.of_eq rfl
    · exact fileClickHandler_reaches a b item
  · exact Reaches.refl _ _

theorem gridStep_reaches (h : Helpers) (inp : FrameInput) (st : GridState)
    (item : VideobrowserItem) :
    Reaches true true st.browser (gridStep h inp st item).browser := by
  rw [(gridStep_eq h inp st item).1]
  have hacc : Reaches true true st.browser
      { st.browser with trace := st.browser.trace ++ [Act.ItemsAccess] } :=
    Reaches.of_trace [Act.ItemsAccess] rfl rfl
  split
  · exact hacc.trans (clickEffect_reaches h inp st.pos true _ item)
  · exact hacc

theorem foldl_gridStep_reaches (h : Helpers) (inp : FrameInput)
    (items : List VideobrowserItem) :
    ∀ st : GridState, Reaches true true st.browser (items.foldl (gridStep h inp) st).browser := by
  induction items with
  | nil => intro st; exact Reaches.refl _ _
  | cons item rest ih =>
    intro st
    rw [List.foldl_cons]
    exact (gridStep_reaches h inp st item).trans (ih _)

theorem gridLoop_reaches (h : Helpers) (inp : FrameInput) (b : Videobrowser) :
    Reaches true true b (gridLoop h inp b).browser := by
  unfold gridLoop
  have hinit : Reaches true true b (gridInit b).browser :=
    Reaches.of_trace [Act.ItemsAccess] rfl rfl
  exact hinit.trans (foldl_gridStep_reaches h inp b.Items (gridInit b))

theorem menuBar_trace (inp : FrameInput) (b : Videobrowser) : (menuBar inp b).trace = b.trace := by
  unfold menuBar
  split
  · split <;> rfl
  · rfl

theorem navInput_reaches (inp : FrameInput) (b : Videobrowser) :
    Reaches true true b (navInput inp b) := by
  unfold navInput
  split
  · simp only
    split
    · exact Reaches.of_trace [Act.ItemsAccess] rfl rfl
    · split
      · exact Reaches.of_trace [Act.ItemsAccess] rfl rfl
      · exact Reaches.of_trace [Act.ItemsAccess] rfl rfl
  · split
    · exact Reaches.of_eq rfl
    · split
      · exact Reaches.of_eq rfl
      · exact Reaches.refl _ _

theorem frameHead_reaches (inp : FrameInput) (b : Videobrowser) :
    Reaches false true b (frameHead inp b) := by
  unfold frameHead
  have h1 : Reaches false false b (if b.CacheNeedsUpdate then updateLibraryCache b else b) := by
    split
    · exact updateLibraryCache_reaches false b
    · exact Reaches.refl _ _
  have h2 : Reaches false true (if b.CacheNeedsUpdate then updateLibraryCache b else b)
      (SDL_AtomicLock (if b.CacheNeedsUpdate then updateLibraryCache b else b)) :=
    Reaches.of_trace [Act.AtomicLock] rfl rfl
  have h3 : Reaches true true
      (SDL_AtomicLock (if b.CacheNeedsUpdate then updateLibraryCache b else b))
      (menuBar inp (SDL_AtomicLock (if b.CacheNeedsUpdate then updateLibraryCache b else b))) :=
    Reaches.of_eq (menuBar_trace inp _)
  refine ((h1.trans h2).trans h3).trans ?_
  refine Reaches.trans ?_ (navInput_reaches inp _)
  apply Reaches.of_eq
  split <;> rfl

theorem ShowBrowserSettings_trace (inp : FrameInput) (b : Videobrowser) :
    (ShowBrowserSettings inp b).trace = b.trace := by
  unfold ShowBrowserSettings
  split
  · rfl
  · split
    · simp only
      split
      · split <;> rfl
      · rfl
    · rfl

theorem Lootcrate_reaches (inp : FrameInput) (b : Videobrowser) :
    Reaches true true b (Lootcrate inp b) := by
  unfold Lootcrate
  split
  · exact Reaches.refl _ _
  · split
    · exact Reaches.of_trace [Act.ItemsAccess] rfl rfl
    · exact Reaches.refl _ _

theorem ShowBrowser_reaches (h : Helpers) (inp : FrameInput) (b : Videobrowser) :
    Reaches false false b (ShowBrowser h inp b).1 := by
  unfold ShowBrowser
  split
  · exact Reaches.refl _ _
  · have h1 := (frameHead_reaches inp b).trans (gridLoop_reaches h inp (frameHead inp b))
    have h2 : Reaches true false (gridLoop h inp (frameHead inp b)).browser
        (SDL_AtomicUnlock
          { (gridLoop h inp (frameHead inp b)).browser with
            Items := (gridLoop h inp (frameHead inp b)).items }) :=
      Reaches.of_trace [Act.AtomicUnlock] rfl rfl
    have h3 := Reaches.of_eq (a := false) (ShowBrowserSettings_trace inp
      (SDL_AtomicUnlock
          { (gridLoop h inp (frameHead inp b)).browser with
            Items := (gridLoop h inp (frameHead inp b)).items }))
    have h4 : ∀ x : Videobrowser, Reaches false true x (SDL_AtomicLock x) :=
      fun x => Reaches.of_trace [Act.AtomicLock] rfl rfl
    have h5 : ∀ x : Videobrowser, Reaches true false x (SDL_AtomicUnlock x) :=
      fun x => Reaches.of_trace [Act.AtomicUnlock] rfl rfl
    exact ((((h1.trans h2).trans h3).trans (h4 _)).trans (Lootcrate_reaches inp _)).trans (h5 _)

/-! ### The items let through by the filter check -/

theorem gridStep_displayedCalls (h : Helpers) (inp : FrameInput) (st : GridState)
    (item : VideobrowserItem) :
    displayedCalls (gridStep h inp st item).draw =
      displayedCalls st.draw ++
        (if shown h st.index st.browser.Filter item then [itemCall h item] else []) := by
  have hsame : DrawCall.SameLine.isItem = false := rfl
  unfold displayedCalls
  rw [(gridStep_eq h inp st item).2.1]
  split
  · split <;> simp [List.filter_append, List.filter_cons, itemCall_isItem, hsame]
  · simp

theorem shown_of_index_pos (h : Helpers) (index : Int) (filter : Str) (item : VideobrowserItem)
    (hpos : 1 ≤ index) :
    shown h index filter item = (filter.isEmpty || matchesFilter h filter item) := by
  have hne : (index != 0) = true := by
    simp only [bne_iff_ne, ne_eq]
    omega
  unfold shown matchesFilter
  rw [hne]
  cases filter.isEmpty <;> cases h.ContainsInsensitive item.video.filename filter <;> rfl

theorem foldl_gridStep_displayedCalls (h : Helpers) (inp : FrameInput)
    (items : List VideobrowserItem) :
    ∀ st : GridState, 1 ≤ st.index →
      displayedCalls (items.foldl (gridStep h inp) st).draw =
        displayedCalls st.draw ++
          (items.filter
            (fun it => st.browser.Filter.isEmpty || matchesFilter h st.browser.Filter it)).map
            (itemCall h) := by
  induction items with
  | nil => intro st _; simp
  | cons item rest ih =>
    intro st hpos
    have hidx : 1 ≤ (gridStep h inp st item).index := by
      rw [(gridStep_eq h inp st item).2.2.1]
      split <;> omega
    rw [List.foldl_cons, ih _ hidx, gridStep_displayedCalls, (gridStep_settings h inp st item).2,
      shown_of_index_pos h st.index st.browser.Filter item hpos, List.filter_cons]
    cases hshow : (st.browser.Filter.isEmpty || matchesFilter h st.browser.Filter item) <;>
      simp

theorem gridLoop_displayedCalls (h : Helpers) (inp : FrameInput) (b : Videobrowser)
    (first : VideobrowserItem) (rest : List VideobrowserItem) (hItems : b.Items = first :: rest) :
    displayedCalls (gridLoop h inp b).draw =
      (first :: rest.filter (fun it => b.Filter.isEmpty || matchesFilter h b.Filter it)).map
        (itemCall h) := by
  have hshown : shown h (gridInit b).index (gridInit b).browser.Filter first = true := by
    simp [shown, gridInit]
  have hidx : 1 ≤ (gridStep h inp (gridInit b) first).index := by
    rw [(gridStep_eq h inp (gridInit b) first).2.2.1, if_pos hshown]
    simp [gridInit]
  have hfilter : (gridStep h inp (gridInit b) first).browser.Filter = b.Filter :=
    (gridStep_settings h inp (gridInit b) first).2
  unfold gridLoop
  rw [hItems, List.foldl_cons, foldl_gridStep_displayedCalls h inp rest _ hidx,
    gridStep_displayedCalls, if_pos hshown, hfilter]
  simp [displayedCalls, gridInit]

theorem gridLoop_displayedCalls_shown (h : Helpers) (inp : FrameInput) (b : Videobrowser) :
    displayedCalls (gridLoop h inp b).draw =
      (shownItems h b.Filter b.Items).map (itemCall h) := by
  cases hItems : b.Items with
  | nil => simp [gridLoop, hItems, displayedCalls, gridInit, shownItems]
  | cons first rest =>
    rw [gridLoop_displayedCalls h inp b first rest hItems]
    rfl

theorem rowsOf_layoutFrom_flatten (n : Nat) (cs : List DrawCall)
    (hcs : ∀ c ∈ cs, c.isItem = true) :
    ∀ k, (rowsOf (layoutFrom n k cs)).flatten = cs := by
  induction cs with
  | nil => intro k; simp [layoutFrom, rowsOf]
  | cons d ds ih =>
    intro k
    have hd : d.isItem = true := hcs d (List.mem_cons_self _ _)
    have hds : ∀ c ∈ ds, c.isItem = true := fun c hc => hcs c (List.mem_cons_of_mem _ hc)
    have hrec := ih hds (k + 1)
    by_cases hmod : (k + 1) % n ≠ 0
    · have hlay : layoutFrom n k (d :: ds) =
          d :: DrawCall.SameLine :: layoutFrom n (k + 1) ds := by
        simp [layoutFrom, hmod]
      rw [hlay, rowsOf_item_sameLine d hd]
      cases hrows : rowsOf (layoutFrom n (k + 1) ds) with
      | nil =>
        rw [hrows] at hrec
        simp only [List.flatten_nil] at hrec
        simp [← hrec]
      | cons r rs =>
        rw [hrows] at hrec
        simp only [List.flatten_cons] at hrec ⊢
        rw [← hrec]
        rfl
    · have hzero : (k + 1) % n = 0 := by
        by_contra hne
        exact hmod hne
      have hlay : layoutFrom n k (d :: ds) = d :: layoutFrom n (k + 1) ds := by
        simp [layoutFrom, hzero]
      rw [hlay, rowsOf_item d hd _ (layoutFrom_head n ds hds (k + 1))]
      simp [hrec]

/-! ## The library scan: what it keeps, how it rebuilds and orders `Items` -/

/-- C1, evaluated where it fails. The entry "/lib/a.mp4" is visited, is not a directory,
carries an extension of the table and stands beside "/lib/a.funscript", but
its size cannot be read: the scan ends with the exception raised by
`file_size()` and has added no item. -/
theorem scan_unreadable_size_not_added :
    entryA none ∈ visited (sampleFileSystem false [entryA none] sampleTimes false)
        ⟨"/lib".toList, false⟩ ∧
      paired (sampleFileSystem false [entryA none] sampleTimes false) sampleExtensions
        (entryA none) ∧
      updateLibrary insertionStdSort (sampleFileSystem false [entryA none] sampleTimes false)
          sampleExtensions sampleBrowser =
        .error { sampleBrowser with Items := [], trace := appendTrace } :=
  ⟨by decide, ⟨rfl, ⟨(".mp4".toList, true), by decide, by decide⟩, by decide⟩, rfl⟩

/-- C3: when the thread body runs to completion, whatever function `std::sort` is, `Items`
holds exactly the items found by this scan, each as often as it was found (it
is a permutation of them), and the same scan started from any other prior
content of `Items` completes with the same `Items`. -/
theorem updateLibrary_rebuilds_Items (std : StdSort) (fs : FileSystem)
    (exts : List (Str × Bool)) (b : Videobrowser) (r : Videobrowser × Int)
    (h : updateLibrary std fs exts b = .ok r) :
    r.1.Items.Perm (found fs exts b.settings.SearchPaths) ∧
      ∀ prior : List VideobrowserItem,
        ∃ r2, updateLibrary std fs exts { b with Items := prior } = .ok r2 ∧
          r2.1.Items = r.1.Items := by
  have hno := updateLibrary_ok std fs exts b r h
  have heq := updateLibrary_eq std fs exts b hno
  rw [heq] at h
  cases h
  refine ⟨std.perm newerFirst _, ?_⟩
  intro prior
  exact ⟨_, updateLibrary_eq std fs exts { b with Items := prior } hno, rfl⟩

/-- A scan of the sample library, started with an old item in `Items`, completes with the two
items it found and without the old one. -/
theorem updateLibrary_rebuilds_Items_witness :
    updateLibrary insertionStdSort
        (sampleFileSystem false [entryA (some 10), entryB (some 20)] sampleTimes false)
        sampleExtensions { sampleBrowser with Items := [sampleItem "/old/x.mp4" "x.mp4" 1 1] } =
      .ok ({ sampleBrowser with
          Items := [sampleItem "/lib/b.mp4" "b.mp4" 20 9, sampleItem "/lib/a.mp4" "a.mp4" 10 5],
          trace := appendTrace ++ appendTrace ++ appendTrace ++
            [Act.DoneIterating "/lib".toList false] ++ appendTrace }, 0) ∧
    [sampleItem "/lib/b.mp4" "b.mp4" 20 9, sampleItem "/lib/a.mp4" "a.mp4" 10 5].Perm
      (found (sampleFileSystem false [entryA (some 10), entryB (some 20)] sampleTimes false)
        sampleExtensions sampleBrowser.settings.SearchPaths) :=
  ⟨rfl,
    (updateLibrary_rebuilds_Items insertionStdSort
      (sampleFileSystem false [entryA (some 10), entryB (some 20)] sampleTimes false)
      sampleExtensions { sampleBrowser with Items := [sampleItem "/old/x.mp4" "x.mp4" 1 1] }
      _ rfl).1⟩

/-- C4: when a scan finishes, whatever function `std::sort` is, `Items` is a permutation of
the items the scan collected and every item has a timestamp greater than or
equal to that of the item after it (and of every later item). -/
theorem updateLibrary_sorted_newest_first (std : StdSort) (fs : FileSystem)
    (exts : List (Str × Bool)) (b : Videobrowser) (r : Videobrowser × Int)
    (h : updateLibrary std fs exts b = .ok r) :
    r.1.Items.Perm (found fs exts b.settings.SearchPaths) ∧
      r.1.Items.Chain' (fun a b => a.video.timestamp ≥ b.video.timestamp) ∧
      r.1.Items.Pairwise (fun a b => a.video.timestamp ≥ b.video.timestamp) := by
  have hno := updateLibrary_ok std fs exts b r h
  rw [updateLibrary_eq std fs exts b hno] at h
  cases h
  exact ⟨std.perm newerFirst _, (std.sorted_newerFirst _).chain', std.sorted_newerFirst _⟩

/-- A scan of the sample library completes with the newer of its two items first. -/
theorem updateLibrary_sorted_newest_first_witness :
    updateLibrary insertionStdSort
        (sampleFileSystem false [entryA (some 10), entryB (some 20)] sampleTimes false)
        sampleExtensions sampleBrowser =
      .ok ({ sampleBrowser with
          Items := [sampleItem "/lib/b.mp4" "b.mp4" 20 9, sampleItem "/lib/a.mp4" "a.mp4" 10 5],
          trace := appendTrace ++ appendTrace ++ appendTrace ++
            [Act.DoneIterating "/lib".toList false] ++ appendTrace }, 0) ∧
    [sampleItem "/lib/b.mp4" "b.mp4" 20 9, sampleItem "/lib/a.mp4" "a.mp4" 10 5].Chain'
      (fun a b => a.video.timestamp ≥ b.video.timestamp) :=
  ⟨rfl,
    (updateLibrary_sorted_newest_first insertionStdSort
      (sampleFileSystem false [entryA (some 10), entryB (some 20)] sampleTimes false)
      sampleExtensions sampleBrowser _ rfl).2.1⟩

/-! ## Errors met by the scan -/

/-- C6, refuted as stated. A timestamp that cannot be read does not make the scan skip
the entry: the entry is added with timestamp 0. A directory test that raises,
an iterator step that raises, or a size that cannot be read, ends the scan
with the exception: the scan does not return, and the entries after the one
that raised are never visited. -/
theorem scan_errors_not_all_skipped :
    (timestampUnreadable (sampleFileSystem true [entryA (some 10)] noTimes false)
          "/lib/a.mp4".toList = true ∧
        updateLibrary insertionStdSort (sampleFileSystem true [entryA (some 10)] noTimes false)
            sampleExtensions sampleBrowser =
          .ok ({ sampleBrowser with
              Items := [sampleItem "/lib/a.mp4" "a.mp4" 10 0],
              trace := appendTrace ++ appendTrace ++ [Act.DoneIterating "/lib".toList false] ++
                appendTrace }, 0)) ∧
      updateLibrary insertionStdSort
          (sampleFileSystem false [entryLoop, entryA (some 10)] sampleTimes false)
          sampleExtensions sampleBrowser =
        .error { sampleBrowser with Items := [], trace := appendTrace } ∧
      updateLibrary insertionStdSort (sampleFileSystem false [entryA (some 10)] sampleTimes true)
          sampleExtensions sampleBrowser =
        .error { sampleBrowser with
          Items := [sampleItem "/lib/a.mp4" "a.mp4" 10 5],
          trace := appendTrace ++ appendTrace } ∧
      updateLibrary insertionStdSort
          (sampleFileSystem false [entryA none, entryB (some 20)] sampleTimes false)
          sampleExtensions sampleBrowser =
        .error { sampleBrowser with Items := [], trace := appendTrace } :=
  ⟨⟨rfl, rfl⟩, rfl, rfl, rfl⟩

/-- C6, amended. When no directory test, no size read of an accepted entry and no iterator
step raises, then, whatever function `std::sort` is: the scan returns 0 after
reporting the end of iteration of every search path in order and sorting;
`Items` holds exactly the items of the entries of the search paths that could
be opened (a path that cannot be opened contributes none); and every accepted
entry of such a path is in `Items` with the value of `GetFileAge` as its
timestamp, also when its timestamp cannot be read: the entry is then not
skipped and carries the fallback value (0 on WIN32 when the file cannot be
opened, otherwise the value `last_write_time` returns on error). -/
theorem updateLibrary_without_raise (std : StdSort) (fs : FileSystem)
    (exts : List (Str × Bool)) (b : Videobrowser)
    (h : ∀ s ∈ b.settings.SearchPaths, pathThrows fs exts s = false) :
    ∃ b', updateLibrary std fs exts b = .ok (b', 0) ∧
      doneIterating b'.trace = doneIterating b.trace ++ b.settings.SearchPaths ∧
      b'.Items.Chain' (fun x y => x.video.timestamp ≥ y.video.timestamp) ∧
      b'.Items.Perm
        (((b.settings.SearchPaths.filter (fun s => !(streamOf fs s).ec)).flatMap
          (fun s => (streamOf fs s).entries)).filterMap (scanItem fs exts)) ∧
      ∀ s ∈ b.settings.SearchPaths, (streamOf fs s).ec = false →
        ∀ p ∈ (streamOf fs s).entries, accepted fs exts p = true →
          ∃ item ∈ b'.Items, item.video.path = p.path ∧
            item.video.timestamp = GetFileAge fs p.path ∧
            (timestampUnreadable fs p.path = true →
              item.video.timestamp =
                if fs.win32 && !(fs.times p.path).createFile then 0 else fs.fileTimeMin) := by
  refine ⟨_, updateLibrary_eq std fs exts b h, ?_, ?_, ?_, ?_⟩
  · show doneIterating (b.trace ++ scanTrace fs exts b.settings.SearchPaths) = _
    rw [doneIterating_append, doneIterating_scanTrace]
  · exact (std.sorted_newerFirst _).chain'
  · show (std.sort newerFirst (found fs exts b.settings.SearchPaths)).Perm _
    have hfound : found fs exts b.settings.SearchPaths =
        ((b.settings.SearchPaths.filter (fun s => !(streamOf fs s).ec)).flatMap
          (fun s => (streamOf fs s).entries)).filterMap (scanItem fs exts) := by
      unfold found
      rw [visited_flatMap]
    rw [← hfound]
    exact std.perm newerFirst _
  · intro s hs hec p hp hacc
    have hthrow := h s hs
    unfold pathThrows at hthrow
    simp only [hec, Bool.not_false, Bool.true_and, Bool.or_eq_false_iff] at hthrow
    have hsize : p.file_size.isSome = true := by
      cases hsz : p.file_size with
      | some n => rfl
      | none =>
        have : (streamOf fs s).entries.any (throwsAt fs exts) = true :=
          List.any_eq_true.2 ⟨p, hp, by simp [throwsAt, hacc, hsz]⟩
        rw [hthrow.1] at this
        exact absurd this (by decide)
    obtain ⟨item, hitem⟩ :=
      Option.isSome_iff_exists.1 ((scanItem_isSome_iff fs exts p).2 ⟨hacc, hsize⟩)
    have hprops := scanItem_hasScript fs exts p item hitem
    refine ⟨item, ?_, hprops.2.1, hprops.2.2, ?_⟩
    · show item ∈ std.sort newerFirst (found fs exts b.settings.SearchPaths)
      rw [(std.perm newerFirst _).mem_iff]
      unfold found
      rw [List.mem_filterMap]
      refine ⟨p, ?_, hitem⟩
      rw [List.mem_flatMap]
      refine ⟨s, hs, ?_⟩
      unfold visited
      simp [hec, hp]
    · intro hun
      rw [hprops.2.2, GetFileAge_unreadable fs p.path hun]

/-- A scan of the sample library on WIN32 with unreadable timestamps raises nowhere, returns 0
and reports its search path. -/
theorem updateLibrary_without_raise_witness :
    (∀ s ∈ sampleBrowser.settings.SearchPaths,
        pathThrows (sampleFileSystem true [entryA (some 10), entryB (some 20)] noTimes false)
          sampleExtensions s = false) ∧
      ∃ b', updateLibrary insertionStdSort
          (sampleFileSystem true [entryA (some 10), entryB (some 20)] noTimes false)
          sampleExtensions sampleBrowser = .ok (b', 0) ∧
        doneIterating b'.trace = sampleBrowser.settings.SearchPaths :=
  ⟨by decide,
    (updateLibrary_without_raise insertionStdSort
      (sampleFileSystem true [entryA (some 10), entryB (some 20)] noTimes false)
      sampleExtensions sampleBrowser (by decide)).imp (fun _ hb => ⟨hb.1, hb.2.1⟩)⟩

/-! ## The browser frame and the dialogs -/

/-- C2: for an item with a script the file click handler sets `ClickedFilePath` to the
path of the item and pushes exactly one `VideobrowserItemClicked` event,
changing nothing else; for an item without script it changes nothing and
pushes no event. -/
theorem fileClickHandler_effect (b : Videobrowser) (item : VideobrowserItem) :
    (item.video.hasScript = true →
      fileClickHandler b item =
        { b with
          ClickedFilePath := item.video.path
          trace := b.trace ++ [Act.PushEvent Event.VideobrowserItemClicked] }) ∧
    (item.video.hasScript = false → fileClickHandler b item = b) := by
  unfold fileClickHandler
  constructor
  · intro hs
    simp [hs]
  · intro hs
    simp [hs]

/-- A click on a sample item with a script stores its path and pushes the event. -/
theorem fileClickHandler_effect_witness :
    (sampleItem "/lib/a.mp4" "a.mp4" 10 5).video.hasScript = true ∧
      fileClickHandler sampleBrowser (sampleItem "/lib/a.mp4" "a.mp4" 10 5) =
        { sampleBrowser with
          ClickedFilePath := "/lib/a.mp4".toList
          trace := [Act.PushEvent Event.VideobrowserItemClicked] } :=
  ⟨rfl, (fileClickHandler_effect sampleBrowser (sampleItem "/lib/a.mp4" "a.mp4" 10 5)).1 rfl⟩

/-- C5, evaluated where it fails. `updateLibraryCache` and `Util::OpenFileDialog` create one
thread and detach the handle they got; `Util::SaveFileDialog` creates one
thread and never detaches it. -/
theorem SaveFileDialog_does_not_detach (b : Videobrowser) (trace : List Act) :
    (updateLibraryCache b).trace =
        b.trace ++ [Act.CreateThread "UpdateVideoLibrary" (nextHandle b.trace),
          Act.DetachThread (nextHandle b.trace)] ∧
      Util.OpenFileDialog trace =
        trace ++ [Act.CreateThread "OpenFileDialog" (nextHandle trace),
          Act.DetachThread (nextHandle trace)] ∧
      Util.SaveFileDialog trace =
        trace ++ [Act.CreateThread "SaveFileDialog" (nextHandle trace)] ∧
      Util.SaveFileDialog [] = [Act.CreateThread "SaveFileDialog" 0] := by
  refine ⟨?_, ?_, ?_, rfl⟩
  · simp [updateLibraryCache, SDL_CreateThread, SDL_DetachThread]
  · simp [Util.OpenFileDialog, SDL_CreateThread, SDL_DetachThread]
  · simp [Util.SaveFileDialog, SDL_CreateThread]

/-- C10: when `ItemsPerRow` is in 1..25 as `ShowBrowser` is entered, it is in 1..25 (so not
zero) when the grid loop starts and after every turn of the loop, and when
`ShowBrowser` returns, whatever the toolkit reports in the frame. -/
theorem ItemsPerRow_stays_in_range (h : Helpers) (inp : FrameInput) (b : Videobrowser)
    (hlo : 1 ≤ b.settings.ItemsPerRow) (hhi : b.settings.ItemsPerRow ≤ 25) :
    (∀ k : Nat,
      1 ≤ (((frameHead inp b).Items.take k).foldl (gridStep h inp)
            (gridInit (frameHead inp b))).browser.settings.ItemsPerRow ∧
        (((frameHead inp b).Items.take k).foldl (gridStep h inp)
            (gridInit (frameHead inp b))).browser.settings.ItemsPerRow ≤ 25 ∧
        (((frameHead inp b).Items.take k).foldl (gridStep h inp)
            (gridInit (frameHead inp b))).browser.settings.ItemsPerRow ≠ 0) ∧
      1 ≤ (ShowBrowser h inp b).1.settings.ItemsPerRow ∧
      (ShowBrowser h inp b).1.settings.ItemsPerRow ≤ 25 := by
  have hhead := frameHead_range inp b ⟨hlo, hhi⟩
  have hloop : ∀ items : List VideobrowserItem,
      (items.foldl (gridStep h inp) (gridInit (frameHead inp b))).browser.settings =
        (frameHead inp b).settings :=
    fun items => (foldl_gridStep_settings h inp items (gridInit (frameHead inp b))).1
  refine ⟨?_, ?_⟩
  · intro k
    rw [hloop]
    exact ⟨hhead.1, hhead.2, by omega⟩
  · unfold ShowBrowser
    split
    · exact ⟨hlo, hhi⟩
    · simp only [SDL_AtomicLock, SDL_AtomicUnlock, Lootcrate_settings,
        ShowBrowserSettings_ItemsPerRow, gridLoop]
      rw [hloop]
      exact hhead

/-- A frame in which 1000 is typed into the "Items" field and FocusNext is pressed leaves
`ItemsPerRow` in range. -/
theorem ItemsPerRow_stays_in_range_witness :
    1 ≤ sampleBrowser.settings.ItemsPerRow ∧ sampleBrowser.settings.ItemsPerRow ≤ 25 ∧
      1 ≤ (ShowBrowser sampleHelpers (sampleInput 1000) sampleBrowser).1.settings.ItemsPerRow ∧
      (ShowBrowser sampleHelpers (sampleInput 1000) sampleBrowser).1.settings.ItemsPerRow ≤ 25 :=
  ⟨by decide, by decide,
    (ItemsPerRow_stays_in_range sampleHelpers (sampleInput 1000) sampleBrowser
      (by decide) (by decide)).2⟩

/-! ## The result of the file dialog -/

/-- C9: for a multiple selection the file list built from a result `s` is the split of `s`
on the bar: it has one entry more than `s` has bars, no entry contains a bar,
and the entries joined by bars give `s`; for a single selection the list is
the one entry `s`; for a null result the list is empty. -/
theorem OpenFileDialog_files_split (s : Str) :
    ((Util.OpenFileDialog_files (some s) true).length = s.count '|' + 1 ∧
        (∀ f ∈ Util.OpenFileDialog_files (some s) true, '|' ∉ f) ∧
        List.intercalate ['|'] (Util.OpenFileDialog_files (some s) true) = s) ∧
      Util.OpenFileDialog_files (some s) false = [s] ∧
      ∀ multiple, Util.OpenFileDialog_files none multiple = [] := by
  refine ⟨?_, rfl, fun _ => rfl⟩
  have hinit : Util.SplitInv [] { last := 0, index := 0, files := [] } := by
    unfold Util.SplitInv
    simp [List.intercalate, List.intersperse]
  have hinv := Util.foldl_splitStep_inv s s [] _ rfl hinit
  obtain ⟨hidx, hlast, hfiles, hcur, hlen, hjoin⟩ := hinv
  have hcut : ∀ st : Util.SplitState, st.index = s.length →
      (s.drop st.last).take (st.index - st.last) = s.drop st.last := by
    intro st hst
    rw [List.take_of_length_le (by simp [hst])]
  have hfilesEq : Util.OpenFileDialog_files (some s) true =
      (s.foldl (Util.splitStep s) { last := 0, index := 0, files := [] }).files ++
        [s.drop (s.foldl (Util.splitStep s) { last := 0, index := 0, files := [] }).last] := by
    simp only [Util.OpenFileDialog_files, if_true]
    rw [hcut _ hidx]
  rw [hfilesEq]
  refine ⟨by simp [hlen], ?_, hjoin⟩
  intro f hf
  rcases List.mem_append.1 hf with h1 | h1
  · exact hfiles f h1
  · rw [List.mem_singleton.1 h1]
    exact hcur

/-! ## The grid -/

/-- C7: with `ItemsPerRow = n ≥ 1`, the draw list of the grid loop is the list of the calls
that draw the items not filtered out, in list order, the k-th of them (k from
1) followed by `SameLine` exactly when `k % n ≠ 0`; the final `index` is
their number; the rows of the grid hold exactly these items in order; and
every row except possibly the last holds exactly `n` of them. -/
theorem gridLoop_rows (h : Helpers) (inp : FrameInput) (b : Videobrowser) (n : Nat)
    (hn : 1 ≤ n) (hb : b.settings.ItemsPerRow = n) :
    (gridLoop h inp b).draw =
        layoutFrom n 0 ((shownItems h b.Filter b.Items).map (itemCall h)) ∧
      (gridLoop h inp b).index = (shownItems h b.Filter b.Items).length ∧
      (rowsOf (gridLoop h inp b).draw).flatten =
        (shownItems h b.Filter b.Items).map (itemCall h) ∧
      ∀ row ∈ (rowsOf (gridLoop h inp b).draw).dropLast, row.length = n := by
  obtain ⟨cs, hcs, hdraw, hindex⟩ :=
    foldl_gridStep_layout h inp n b.Items (gridInit b) [] hb
      (fun c hc => by cases hc) rfl rfl
  have hd : (gridLoop h inp b).draw = layoutFrom n 0 cs := hdraw
  have hi : (gridLoop h inp b).index = cs.length := hindex
  have hshown : cs = (shownItems h b.Filter b.Items).map (itemCall h) := by
    rw [← gridLoop_displayedCalls_shown h inp b, hd]
    exact (filter_layoutFrom n cs hcs 0).symm
  have hlen : cs.length = (shownItems h b.Filter b.Items).length := by
    rw [hshown, List.length_map]
  rw [hd, hi, hlen, ← hshown]
  refine ⟨rfl, rfl, rowsOf_layoutFrom_flatten n cs hcs 0, ?_⟩
  have hrows := rowsOf_layoutFrom n hn cs hcs 0
  intro row hrow
  cases hr : rowsOf (layoutFrom n 0 cs) with
  | nil => rw [hr] at hrow; simp at hrow
  | cons r0 rest =>
    rw [hr] at hrow hrows
    simp only [RowsFrom] at hrows
    obtain ⟨hne, hcase⟩ := mem_dropLast_cons row r0 rest hrow
    rcases hcase with rfl | hmem
    · have := hrows.1 hne
      simpa using this
    · exact hrows.2 row hmem

/-- Seven items in rows of three: each of the first six is followed by `SameLine` unless it
is the third or the sixth, and the rows hold three, three and one item. -/
theorem gridLoop_rows_witness :
    1 ≤ 3 ∧ sampleGridBrowser.settings.ItemsPerRow = ((3 : Nat) : Int) ∧
      (gridLoop sampleHelpers (sampleInput 3) sampleGridBrowser).draw.map DrawCall.isItem =
        [true, false, true, false, true, true, false, true, false, true, true, false] ∧
      (rowsOf (gridLoop sampleHelpers (sampleInput 3) sampleGridBrowser).draw).map List.length =
        [3, 3, 1] :=
  ⟨by decide, rfl,
    (congrArg (fun d => d.map DrawCall.isItem)
      (gridLoop_rows sampleHelpers (sampleInput 3) sampleGridBrowser 3 (by decide) rfl).1).trans
      (by decide),
    (congrArg (fun d => (rowsOf d).map List.length)
      (gridLoop_rows sampleHelpers (sampleInput 3) sampleGridBrowser 3 (by decide) rfl).1).trans
      (by decide)⟩

/-! ## The spinlock around `Items` -/

/-- C8: the trace that the constructor, the scan thread body (whether it returns or an
exception leaves it) and `ShowBrowser` each add is disciplined: it starts and
ends with `ItemsLock` free, never locks it while holding it, never unlocks it
while not holding it, and touches `Items` only while holding it; and
`ShowBrowser` called on a closed window adds nothing to the trace. -/
theorem ItemsLock_discipline :
    (∀ (self : Videobrowser) (settings : VideobrowserSettings) (vidCache : List Video),
        ∃ t, (Videobrowser.ctor self settings vidCache).trace = self.trace ++ t ∧
          Disciplined t) ∧
      (∀ (std : StdSort) (fs : FileSystem) (exts : List (Str × Bool)) (b : Videobrowser),
        ∃ t, (threadOutcome (updateLibrary std fs exts b)).trace = b.trace ++ t ∧
          Disciplined t) ∧
      (∀ (h : Helpers) (inp : FrameInput) (b : Videobrowser),
        ∃ t, (ShowBrowser h inp b).1.trace = b.trace ++ t ∧ Disciplined t) ∧
      ∀ (h : Helpers) (inp : FrameInput) (b : Videobrowser),
        (ShowBrowser h { inp with windowOpen := some false } b).1.trace = b.trace :=
  ⟨fun self settings vidCache => ctor_reaches self settings vidCache,
    fun std fs exts b => updateLibrary_reaches std fs exts b,
    fun h inp b => ShowBrowser_reaches h inp b,
    fun _ _ _ => rfl⟩

/-! ## The filter of the grid -/

/-- C11: for a non-empty `Filter` and a non-empty item list, the items displayed by the grid
loop are the first item of `Items`, whether or not it matches, followed by the
later items whose file name contains `Filter` (letter case aside), in list
order; with an empty `Filter` every item is displayed. The draw list that
`ShowBrowser` returns for an open window is that of the grid loop. -/
theorem gridLoop_displays_first_and_matches (h : Helpers) (inp : FrameInput)
    (b : Videobrowser) :
    (∀ (first : VideobrowserItem) (rest : List VideobrowserItem),
        b.Items = first :: rest → b.Filter ≠ [] →
        displayedCalls (gridLoop h inp b).draw =
          (first :: rest.filter (matchesFilter h b.Filter)).map (itemCall h)) ∧
      (b.Filter = [] → displayedCalls (gridLoop h inp b).draw = b.Items.map (itemCall h)) ∧
      (inp.windowOpen ≠ some false →
        (ShowBrowser h inp b).2 = (gridLoop h inp (frameHead inp b)).draw) := by
  refine ⟨?_, ?_, ?_⟩
  · intro first rest hItems hFilter
    have hne : b.Filter.isEmpty = false := by
      cases hf : b.Filter with
      | nil => exact absurd hf hFilter
      | cons c cs => rfl
    rw [gridLoop_displayedCalls h inp b first rest hItems, hne]
    simp
  · intro hFilter
    cases hItems : b.Items with
    | nil => simp [gridLoop, hItems, displayedCalls, gridInit]
    | cons first rest =>
      rw [gridLoop_displayedCalls h inp b first rest hItems, hFilter]
      simp
  · intro hopen
    simp [ShowBrowser, hopen]

/-- With the filter "b", the grid shows "a.mp4", the first item, which does not match, and
"b.mp4", and leaves "c.mp4" out. -/
theorem gridLoop_displays_first_and_matches_witness :
    sampleFilterBrowser.Items =
        sampleItem "/lib/a.mp4" "a.mp4" 10 5 ::
          [sampleItem "/lib/b.mp4" "b.mp4" 20 9, sampleItem "/lib/c.mp4" "c.mp4" 1 1] ∧
      sampleFilterBrowser.Filter ≠ [] ∧
      displayedCalls (gridLoop sampleHelpers (sampleInput 3) sampleFilterBrowser).draw =
        [DrawCall.Button "a.mp4".toList, DrawCall.Button "b.mp4".toList] :=
  ⟨rfl, by decide,
    ((gridLoop_displays_first_and_matches sampleHelpers (sampleInput 3)
      sampleFilterBrowser).1 _ _ rfl (by decide)).trans (by decide)⟩

end OFS
